import Mathlib

/-!
Verification of the account-pool scheduler of `src/account_manager.py`
(multi-account management for distributed message processing).

The Python classes are shallowly embedded: the mutable `AccountManager`
object becomes an explicit state record threaded through the operations,
`datetime` timestamps become integers (seconds), Telethon clients become
records carrying the observable flags the code queries
(`is_connected()`, `is_user_authorized()`), and network effects are
driven by explicit outcome oracles.  Database calls
(`db.update_account_stats`, `db.deactivate_account`, ...) are external
side effects with no influence on the pool state and are dropped.
-/

namespace StudentHelpBot

/-- Observable state of a Telethon `TelegramClient`: `connected` models
`client.is_connected()`, `authorized` models what
`client.is_user_authorized()` returns for this client. -/
structure TelegramClient where
  connected : Bool
  authorized : Bool
  deriving Repr, DecidableEq

/-- `AccountStatus` dataclass of `account_manager.py` (lines 21-33).
Timestamps are integers, `current_load` is an integer as in Python. -/
structure AccountStatus where
  account_id : Nat
  username : String
  is_active : Bool
  is_connected : Bool
  last_used : Option Int
  messages_processed : Nat
  error_count : Nat
  current_load : Int
  last_error : Option String
  next_available : Option Int
  deriving Repr, DecidableEq

/-- `Account` worker model of `database.py` (lines 15-27), restricted to
the fields `add_account` reads. -/
structure Account where
  id : Nat
  username : String
  phone : String
  api_id : Nat
  api_hash : String
  session_file : Option String
  last_used : Option Int
  messages_processed : Nat
  error_count : Nat
  deriving Repr, DecidableEq

/-- Result of `TelegramClient.start` + `is_user_authorized` when adding an
account: authorized/unauthorized connection, a `FloodWaitError` with its
`seconds`, or another exception. -/
inductive ConnectOutcome where
  | ok (authorized : Bool)
  | floodWait (seconds : Int)
  | failure (msg : String)
  deriving Repr, DecidableEq

/-- The `AccountManager` object: `accounts` and `account_status` are the
two insertion-ordered dictionaries keyed by account id, `rotation_index`
the round-robin cursor.  (`message_queue`, `active_sessions` and
`max_concurrent_sessions` are never read by the operations under study.) -/
structure AccountManager where
  accounts : List (Nat × TelegramClient)
  account_status : List (Nat × AccountStatus)
  rotation_index : Nat
  deriving Repr, DecidableEq

/-- `AccountManager.__init__`: empty pool. -/
def initMgr : AccountManager := ⟨[], [], 0⟩

/-! ### Association-list primitives modelling Python `dict` -/

/-- `d.get(k)` / `k in d` + `d[k]`: first value bound to `k`. -/
def assocFind {α : Type} : List (Nat × α) → Nat → Option α
  | [], _ => none
  | p :: rest, k => if p.1 = k then some p.2 else assocFind rest k

/-- `d[k] = v`: overwrite in place when the key exists (dict order is
preserved), append otherwise. -/
def assocInsert {α : Type} (l : List (Nat × α)) (k : Nat) (v : α) : List (Nat × α) :=
  if (assocFind l k).isSome then
    l.map (fun p => if p.1 = k then (p.1, v) else p)
  else
    l ++ [(k, v)]

/-- Mutation of the value stored under `k` (Python mutates the object the
dict points to). -/
def assocUpdate {α : Type} (l : List (Nat × α)) (k : Nat) (f : α → α) : List (Nat × α) :=
  l.map (fun p => if p.1 = k then (p.1, f p.2) else p)

/-- `del d[k]`. -/
def assocErase {α : Type} (l : List (Nat × α)) (k : Nat) : List (Nat × α) :=
  l.filter (fun p => p.1 ≠ k)

/-! ### The pool operations -/

/-- `AccountManager._set_account_unavailable` (lines 115-121). -/
def set_account_unavailable (m : AccountManager) (account_id : Nat)
    (wait_seconds : Int) (now : Int) : AccountManager :=
  if (assocFind m.account_status account_id).isSome then
    { m with account_status := assocUpdate m.account_status account_id (fun st =>
        { st with
          next_available := some (now + wait_seconds)
          is_connected := false
          last_error := some ("FloodWait for " ++ toString wait_seconds ++ " seconds") }) }
  else m

/-- `AccountManager.add_account` (lines 71-113), driven by the connection
outcome for this account's client.  On an authorized connection the
client and a fresh status are stored; an unauthorized connection stores
nothing; a `FloodWaitError` runs `_set_account_unavailable`; any other
exception stores nothing. -/
def add_account (m : AccountManager) (account : Account)
    (outcome : ConnectOutcome) (now : Int) : Bool × AccountManager :=
  match outcome with
  | .ok true =>
      (true,
        { m with
          accounts := assocInsert m.accounts account.id ⟨true, true⟩
          account_status := assocInsert m.account_status account.id
            { account_id := account.id
              username := account.username
              is_active := true
              is_connected := true
              last_used := account.last_used
              messages_processed := account.messages_processed
              error_count := account.error_count
              current_load := 0
              last_error := none
              next_available := none } })
  | .ok false => (false, m)
  | .floodWait s => (false, set_account_unavailable m account.id s now)
  | .failure _ => (false, m)

/-- `AccountManager.initialize_accounts` (lines 47-69): add every active
account from the database, return whether at least one initialized. -/
def initialize_accounts (m : AccountManager)
    (db_accounts : List (Account × ConnectOutcome)) (now : Int) : Bool × AccountManager :=
  if db_accounts.isEmpty then (false, m)
  else
    let step := fun (acc : Nat × AccountManager) (cfg : Account × ConnectOutcome) =>
      let r := add_account acc.2 cfg.1 cfg.2 now
      (if r.1 then acc.1 + 1 else acc.1, r.2)
    let r := db_accounts.foldl step (0, m)
    (r.1 > 0, r.2)

/-- Count of accounts `initialize_accounts` reports as initialized. -/
def initializedCount (m : AccountManager)
    (db_accounts : List (Account × ConnectOutcome)) (now : Int) : Nat :=
  (db_accounts.foldl (fun (acc : Nat × AccountManager) cfg =>
      let r := add_account acc.2 cfg.1 cfg.2 now
      (if r.1 then acc.1 + 1 else acc.1, r.2)) (0, m)).1

/-- `AccountManager._reconnect_account` (lines 160-187): disconnect then
connect (the client ends up live), then check authorization; on success
clear the cooldown and error, on authorization loss deactivate the
account.  A missing client raises `KeyError`, caught by recording
`last_error`. -/
def reconnect_account (m : AccountManager) (account_id : Nat) : Bool × AccountManager :=
  match assocFind m.account_status account_id with
  | none => (false, m)
  | some _ =>
    match assocFind m.accounts account_id with
    | none =>
        let sts := assocUpdate m.account_status account_id
          (fun st => { st with last_error := some "KeyError" })
        (false, { m with account_status := sts })
    | some client =>
      let accs := assocUpdate m.accounts account_id
        (fun c => { c with connected := true })
      let m1 := { m with accounts := accs }
      if client.authorized then
        let sts := assocUpdate m1.account_status account_id
          (fun st => { st with
            is_connected := true
            next_available := none
            last_error := none })
        (true, { m1 with account_status := sts })
      else
        let sts := assocUpdate m1.account_status account_id
          (fun st => { st with is_active := false })
        (false, { m1 with account_status := sts })

/-- Reservation commit inside `get_available_account` (lines 145-148 and
153-155): advance the cursor past `index` and increment the load. -/
def commitAcquire (m : AccountManager) (account_id index n : Nat) : AccountManager :=
  { m with
    rotation_index := (index + 1) % n
    account_status :=
      assocUpdate m.account_status account_id
        (fun st => { st with current_load := st.current_load + 1 }) }

/-- The `for i in range(len(account_ids))` loop of `get_available_account`
(lines 133-155): `ids` and `start` are captured before the loop, `steps`
is the remaining tail of `range(len(ids))`. -/
def acquireGo (now : Int) (ids : List Nat) (start : Nat) :
    AccountManager → List Nat → Option Nat × AccountManager
  | m, [] => (none, m)
  | m, i :: rest =>
    let n := ids.length
    let index := (start + i) % n
    let account_id := ids.getD index 0
    match assocFind m.account_status account_id with
    | none => acquireGo now ids start m rest
    | some status =>
      if !status.is_active then acquireGo now ids start m rest
      else if status.is_connected then
        match assocFind m.accounts account_id with
        | some client =>
            if client.connected then
              (some account_id, commitAcquire m account_id index n)
            else acquireGo now ids start m rest
        | none => acquireGo now ids start m rest
      else
        match status.next_available with
        | some t =>
            if now ≥ t then
              let r := reconnect_account m account_id
              if r.1 then (some account_id, commitAcquire r.2 account_id index n)
              else acquireGo now ids start r.2 rest
            else acquireGo now ids start m rest
        | none => acquireGo now ids start m rest

/-- `AccountManager.get_available_account` (lines 123-158): round-robin
scan with health checks; returns the chosen account id (the Python pair
also carries the client) together with the updated pool state. -/
def get_available_account (m : AccountManager) (now : Int) :
    Option Nat × AccountManager :=
  if m.accounts.isEmpty then (none, m)
  else
    let account_ids := m.accounts.map Prod.fst
    acquireGo now account_ids m.rotation_index m (List.range account_ids.length)

/-- `AccountManager.release_account` (lines 189-203). -/
def release_account (m : AccountManager) (account_id : Nat) (success : Bool)
    (error_msg : Option String) (now : Int) : AccountManager :=
  if (assocFind m.account_status account_id).isSome then
    { m with account_status := assocUpdate m.account_status account_id (fun st =>
        let st := { st with current_load := max 0 (st.current_load - 1) }
        let st :=
          if success then { st with messages_processed := st.messages_processed + 1 }
          else { st with error_count := st.error_count + 1, last_error := error_msg }
        { st with last_used := some now }) }
  else m

/-- `AccountManager.handle_flood_wait` (lines 205-211): mark the account
unavailable, then immediately try to switch to another account. -/
def handle_flood_wait (m : AccountManager) (account_id : Nat)
    (wait_seconds : Int) (now : Int) : Option Nat × AccountManager :=
  get_available_account (set_account_unavailable m account_id wait_seconds now) now

/-- `AccountManager.remove_account` (lines 281-302): drop the client and
the status record; `db.deactivate_account` is external. -/
def remove_account (m : AccountManager) (account_id : Nat) : Bool × AccountManager :=
  (true,
    { m with
      accounts := assocErase m.accounts account_id
      account_status := assocErase m.account_status account_id })

/-- One row of `AccountManager.get_account_stats` (lines 213-232). -/
structure AccountStatRow where
  id : Nat
  username : String
  is_active : Bool
  is_connected : Bool
  current_load : Int
  messages_processed : Nat
  error_count : Nat
  last_error : Option String
  is_client_connected : Bool
  deriving Repr, DecidableEq

/-- `AccountManager.get_account_stats`: the per-worker status listing. -/
def get_account_stats (m : AccountManager) : List AccountStatRow :=
  m.account_status.map (fun p =>
    { id := p.1
      username := p.2.username
      is_active := p.2.is_active
      is_connected := p.2.is_connected
      current_load := p.2.current_load
      messages_processed := p.2.messages_processed
      error_count := p.2.error_count
      last_error := p.2.last_error
      is_client_connected := ((assocFind m.accounts p.1).map (·.connected)).getD false })

/-- Result record of `AccountManager.get_health_summary` (lines 234-249);
the two ratios live in `ℚ`. -/
structure HealthSummary where
  total_accounts : Nat
  active_accounts : Nat
  connected_accounts : Nat
  disconnected_accounts : Int
  total_current_load : Int
  average_load_per_account : ℚ
  health_percentage : ℚ
  deriving Repr, DecidableEq

/-- `AccountManager.get_health_summary`. -/
def get_health_summary (m : AccountManager) : HealthSummary :=
  let statuses := m.account_status.map Prod.snd
  let total_accounts := statuses.length
  let active_accounts := (statuses.filter (·.is_active)).length
  let connected_accounts := (statuses.filter (·.is_connected)).length
  let total_load := (statuses.map (·.current_load)).sum
  { total_accounts := total_accounts
    active_accounts := active_accounts
    connected_accounts := connected_accounts
    disconnected_accounts := (active_accounts : Int) - (connected_accounts : Int)
    total_current_load := total_load
    average_load_per_account :=
      if active_accounts > 0 then (total_load : ℚ) / (active_accounts : ℚ) else 0
    health_percentage :=
      if active_accounts > 0 then (connected_accounts : ℚ) / (active_accounts : ℚ) * 100
      else 0 }

/-- Outcome of executing one unit of work through a client inside
`distribute_message_processing`: success, a `FloodWaitError` with its
`seconds`, or another exception. -/
inductive ExecOutcome where
  | success
  | floodWait (seconds : Int)
  | other (msg : String)
  deriving Repr, DecidableEq

/-- `AccountManager.distribute_message_processing` (lines 304-338).  The
oracle list supplies the outcome of each successive execution attempt
(an exhausted oracle behaves as success).  Besides the returned boolean
and pool state, the number of acquire-and-execute attempts actually made
is reported, for the retry-bound analysis. -/
def distribute_message_processing (now : Int) :
    List ExecOutcome → AccountManager → Bool × AccountManager × Nat
  | outcomes, m =>
    match get_available_account m now with
    | (none, m1) => (false, m1, 0)
    | (some account_id, m1) =>
      match outcomes with
      | [] => (true, release_account m1 account_id true none now, 1)
      | .success :: _ => (true, release_account m1 account_id true none now, 1)
      | .other msg :: _ =>
          (false, release_account m1 account_id false (some msg) now, 1)
      | .floodWait s :: rest =>
          match handle_flood_wait m1 account_id s now with
          | (some _, m2) =>
              let r := distribute_message_processing now rest m2
              (r.1, r.2.1, r.2.2 + 1)
          | (none, m2) =>
              (false,
                release_account m2 account_id false
                  (some ("FloodWait " ++ toString s)) now, 1)

/-! ### Traces of public operations -/

/-- An acquire/release event on the pool (the operations of the
`currentLoad` contract). -/
inductive AROp where
  | acquire (now : Int)
  | release (id : Nat) (success : Bool) (msg : Option String) (now : Int)
  deriving Repr, DecidableEq

/-- Apply one acquire/release event to the pool. -/
def applyAR (m : AccountManager) : AROp → AccountManager
  | .acquire now => (get_available_account m now).2
  | .release id success msg now => release_account m id success msg now

/-- Spec-side ledger of outstanding reservations, following the spec's
words: an `acquire` that returns worker `a` adds an outstanding
reservation on `a`; a `release id` settles one outstanding reservation
on `id` when there is one (a release with nothing outstanding matches no
acquire). -/
def outstandingStep (m : AccountManager) (o : Nat → Nat) : AROp → (Nat → Nat)
  | .acquire now =>
    match (get_available_account m now).1 with
    | some a => fun w => if w = a then o w + 1 else o w
    | none => o
  | .release id _ _ _ => fun w => if w = id then o w - 1 else o w

/-- Run an acquire/release trace, threading the pool state and the
spec-side outstanding-reservation ledger. -/
def runAR : AccountManager → (Nat → Nat) → List AROp → AccountManager × (Nat → Nat)
  | m, o, [] => (m, o)
  | m, o, op :: ops => runAR (applyAR m op) (outstandingStep m o op) ops

/-- `currentLoad` of worker `w` as an observer of the pool state (0 for a
worker with no status record). -/
def loadOf (m : AccountManager) (w : Nat) : Int :=
  ((assocFind m.account_status w).map (·.current_load)).getD 0

/-- A public operation on the pool: `initialize`/`add`, `acquire`,
`release`, `reportRateLimit` (= `handle_flood_wait`) and `remove`. -/
inductive Op where
  | add (account : Account) (outcome : ConnectOutcome) (now : Int)
  | initAccounts (cfgs : List (Account × ConnectOutcome)) (now : Int)
  | acquire (now : Int)
  | release (id : Nat) (success : Bool) (msg : Option String) (now : Int)
  | reportRateLimit (id : Nat) (wait_seconds : Int) (now : Int)
  | remove (id : Nat)
  deriving Repr, DecidableEq

/-- Apply one public operation to the pool state. -/
def applyOp (m : AccountManager) : Op → AccountManager
  | .add account outcome now => (add_account m account outcome now).2
  | .initAccounts cfgs now => (initialize_accounts m cfgs now).2
  | .acquire now => (get_available_account m now).2
  | .release id success msg now => release_account m id success msg now
  | .reportRateLimit id w now => (handle_flood_wait m id w now).2
  | .remove id => (remove_account m id).2

/-- Pool state reached by a sequence of public operations from the fresh
manager. -/
def runOps (ops : List Op) : AccountManager :=
  ops.foldl applyOp initMgr

/-- The candidate ids a full ring scan starting at `start` examines, in
order: position `(start + i) % |ids|` for `i = 0, ..., |ids| - 1`
(the index formula of `get_available_account`, line 134). -/
def ringScan (ids : List Nat) (start : Nat) : List Nat :=
  (List.range ids.length).map (fun i => ids.getD ((start + i) % ids.length) 0)


/-- One dispatcher round of the fairness scenario: one `acquire`
immediately followed, when it succeeds, by `release(Success)` of the
returned worker. -/
def acqRelRound (now : Int) (m : AccountManager) : Option Nat × AccountManager :=
  match get_available_account m now with
  | (some a, m1) => (some a, release_account m1 a true none now)
  | (none, m1) => (none, m1)

/-- `k` consecutive acquire-then-release rounds, collecting the chosen
worker ids in order (stopping early if the pool reports exhaustion). -/
def acqRelTrace (now : Int) : Nat → AccountManager → List Nat × AccountManager
  | 0, m => ([], m)
  | k + 1, m =>
    match acqRelRound now m with
    | (some a, m1) =>
      let rest := acqRelTrace now k m1
      (a :: rest.1, rest.2)
    | (none, m1) => ([], m1)

/-- Every worker of the pool is selectable in the spec's sense (active,
status-connected, no pending cooldown) and its client reports a live
connection, so the ring scan accepts whichever candidate it examines
first. -/
def AllSelectable (m : AccountManager) : Prop :=
  (∀ p ∈ m.account_status, p.2.is_active = true ∧ p.2.is_connected = true ∧
    p.2.next_available = none) ∧
  (∀ p ∈ m.accounts, p.2.connected = true) ∧
  (∀ w ∈ m.accounts.map Prod.fst, (assocFind m.account_status w).isSome)

/-- A healthy worker status for the concrete pools used in witnesses and
counterexamples. -/
def mkStatus (i : Nat) : AccountStatus :=
  { account_id := i
    username := ""
    is_active := true
    is_connected := true
    last_used := none
    messages_processed := 0
    error_count := 0
    current_load := 0
    last_error := none
    next_available := none }

/-- A pool of three healthy, connected, authorized workers. -/
def poolThree : AccountManager :=
  { accounts := [(1, ⟨true, true⟩), (2, ⟨true, true⟩), (3, ⟨true, true⟩)]
    account_status := [(1, mkStatus 1), (2, mkStatus 2), (3, mkStatus 3)]
    rotation_index := 0 }

/-- A pool with the single healthy worker 5. -/
def poolOne : AccountManager :=
  { accounts := [(5, ⟨true, true⟩)]
    account_status := [(5, mkStatus 5)]
    rotation_index := 0 }

/-! ### Association-list lemmas -/

theorem assocFind_assocUpdate {α : Type} (l : List (Nat × α)) (k : Nat) (f : α → α)
    (w : Nat) :
    assocFind (assocUpdate l k f) w =
      if w = k then (assocFind l k).map f else assocFind l w := by
  induction l with
  | nil => by_cases hwk : w = k <;> simp [assocFind, assocUpdate, hwk]
  | cons p rest ih =>
    by_cases hwk : w = k
    · subst hwk
      by_cases hpk : p.1 = w
      · simp [assocFind, assocUpdate, hpk]
      · simpa [assocFind, assocUpdate, hpk] using ih
    · by_cases hpk : p.1 = k
      · have hpw : ¬ p.1 = w := by
          rw [hpk]; exact fun h => hwk h.symm
        have hkw : ¬ k = w := fun h => hwk h.symm
        simpa [assocFind, assocUpdate, hpk, hpw, hwk, hkw] using ih
      · by_cases hpw : p.1 = w
        · simp [assocFind, assocUpdate, hpk, hpw, hwk]
        · simpa [assocFind, assocUpdate, hpk, hpw, hwk] using ih

theorem assocFind_append {α : Type} (l l' : List (Nat × α)) (w : Nat) :
    assocFind (l ++ l') w =
      match assocFind l w with
      | some v => some v
      | none => assocFind l' w := by
  induction l with
  | nil => simp [assocFind]
  | cons p rest ih =>
    by_cases hpw : p.1 = w
    · simp [assocFind, hpw]
    · simp [assocFind, hpw, ih]

theorem assocFind_isSome_iff_mem {α : Type} (l : List (Nat × α)) (w : Nat) :
    (assocFind l w).isSome ↔ w ∈ l.map Prod.fst := by
  induction l with
  | nil => simp [assocFind]
  | cons p rest ih =>
    by_cases hpw : p.1 = w
    · simp [assocFind, hpw]
    · have hwp : ¬ w = p.1 := fun h => hpw h.symm
      simp [assocFind, hpw, hwp, ih]

theorem assocFind_assocInsert {α : Type} (l : List (Nat × α)) (k : Nat) (v : α)
    (w : Nat) :
    assocFind (assocInsert l k v) w =
      if w = k then some v else assocFind l w := by
  unfold assocInsert
  by_cases hf : (assocFind l k).isSome
  · rw [if_pos hf]
    have hmap : l.map (fun p => if p.1 = k then (p.1, v) else p) =
        assocUpdate l k (fun _ => v) := rfl
    rw [hmap, assocFind_assocUpdate]
    by_cases hwk : w = k
    · subst hwk
      obtain ⟨x, hx⟩ := Option.isSome_iff_exists.mp hf
      simp [hx]
    · simp [hwk]
  · rw [if_neg hf, assocFind_append]
    have hknone : assocFind l k = none := Option.not_isSome_iff_eq_none.mp hf
    by_cases hwk : w = k
    · subst hwk
      simp [hknone, assocFind]
    · have hkw : ¬ k = w := fun h => hwk h.symm
      cases h : assocFind l w with
      | none => simp [assocFind, hkw, hwk]
      | some x => simp [hwk]

theorem assocErase_cons {α : Type} (p : Nat × α) (rest : List (Nat × α)) (k : Nat) :
    assocErase (p :: rest) k =
      if p.1 = k then assocErase rest k else p :: assocErase rest k := by
  by_cases h : p.1 = k <;> simp [assocErase, h]

theorem assocFind_assocErase {α : Type} (l : List (Nat × α)) (k : Nat) (w : Nat) :
    assocFind (assocErase l k) w =
      if w = k then none else assocFind l w := by
  induction l with
  | nil => by_cases hwk : w = k <;> simp [assocFind, assocErase, hwk]
  | cons p rest ih =>
    rw [assocErase_cons]
    by_cases hpk : p.1 = k
    · rw [if_pos hpk, ih]
      by_cases hwk : w = k
      · simp [hwk]
      · have hpw : ¬ p.1 = w := by
          rw [hpk]; exact fun h => hwk h.symm
        simp [assocFind, hpw, hwk]
    · rw [if_neg hpk]
      by_cases hpw : p.1 = w
      · have hwk : ¬ w = k := by
          intro h; exact hpk (hpw.trans h)
        simp [assocFind, hpw, hwk]
      · simp [assocFind, hpw, ih]

theorem assocFind_mem {α : Type} {l : List (Nat × α)} {w : Nat} {v : α}
    (h : assocFind l w = some v) : (w, v) ∈ l := by
  induction l with
  | nil => simp [assocFind] at h
  | cons p rest ih =>
    obtain ⟨a, b⟩ := p
    have h' : (if a = w then some b else assocFind rest w) = some v := h
    by_cases hpw : a = w
    · subst hpw
      rw [if_pos rfl] at h'
      obtain rfl := Option.some.inj h'
      exact List.mem_cons_self _ _
    · rw [if_neg hpw] at h'
      exact List.mem_cons_of_mem _ (ih h')

theorem keys_assocUpdate {α : Type} (l : List (Nat × α)) (k : Nat) (f : α → α) :
    (assocUpdate l k f).map Prod.fst = l.map Prod.fst := by
  unfold assocUpdate
  rw [List.map_map]
  apply List.map_congr_left
  intro p _
  by_cases h : p.1 = k <;> simp [h]

theorem mem_assocUpdate {α : Type} {l : List (Nat × α)} {k : Nat} {f : α → α}
    {p : Nat × α} (h : p ∈ assocUpdate l k f) :
    ∃ q ∈ l, (q.1 = k ∧ p = (q.1, f q.2)) ∨ (q.1 ≠ k ∧ p = q) := by
  unfold assocUpdate at h
  obtain ⟨q, hq, hqe⟩ := List.mem_map.mp h
  refine ⟨q, hq, ?_⟩
  by_cases hk : q.1 = k
  · left
    exact ⟨hk, by rw [← hqe, if_pos hk]⟩
  · right
    exact ⟨hk, by rw [← hqe, if_neg hk]⟩

theorem mem_assocInsert {α : Type} {l : List (Nat × α)} {k : Nat} {v : α}
    {p : Nat × α} (h : p ∈ assocInsert l k v) :
    p = (k, v) ∨ p ∈ l := by
  unfold assocInsert at h
  by_cases hf : (assocFind l k).isSome
  · rw [if_pos hf] at h
    obtain ⟨q, hq, hqe⟩ := List.mem_map.mp h
    by_cases hk : q.1 = k
    · left; rw [← hqe, if_pos hk, hk]
    · right; rw [← hqe, if_neg hk]; exact hq
  · rw [if_neg hf] at h
    rcases List.mem_append.mp h with h' | h'
    · right; exact h'
    · left; simpa using h'

theorem mem_assocErase {α : Type} {l : List (Nat × α)} {k : Nat} {p : Nat × α}
    (h : p ∈ assocErase l k) : p ∈ l :=
  List.mem_of_mem_filter h

theorem keys_nodup_assocInsert {α : Type} {l : List (Nat × α)} {k : Nat} {v : α}
    (h : (l.map Prod.fst).Nodup) :
    ((assocInsert l k v).map Prod.fst).Nodup := by
  unfold assocInsert
  by_cases hf : (assocFind l k).isSome
  · rw [if_pos hf]
    have heq : (l.map (fun p => if p.1 = k then (p.1, v) else p)).map Prod.fst =
        l.map Prod.fst := by
      rw [List.map_map]
      apply List.map_congr_left
      intro p _
      by_cases hk : p.1 = k <;> simp [hk]
    rw [heq]; exact h
  · rw [if_neg hf, List.map_append]
    rw [List.nodup_append]
    refine ⟨h, by simp, ?_⟩
    intro a ha hb
    simp only [List.map_cons, List.map_nil, List.mem_singleton] at hb
    subst hb
    exact hf ((assocFind_isSome_iff_mem l a).mpr ha)

theorem keys_nodup_assocErase {α : Type} {l : List (Nat × α)} {k : Nat}
    (h : (l.map Prod.fst).Nodup) :
    ((assocErase l k).map Prod.fst).Nodup := by
  unfold assocErase
  exact ((List.filter_sublist l).map Prod.fst).nodup h

theorem assocFind_of_mem_nodup {α : Type} {l : List (Nat × α)} {p : Nat × α}
    (hn : (l.map Prod.fst).Nodup) (hm : p ∈ l) :
    assocFind l p.1 = some p.2 := by
  induction l with
  | nil => simp at hm
  | cons q rest ih =>
    simp only [List.map_cons, List.nodup_cons] at hn
    rcases List.mem_cons.mp hm with h | h
    · subst h
      simp [assocFind]
    · have hne : ¬ (q.1 = p.1) := by
        intro he
        exact hn.1 (he ▸ (List.mem_map.mpr ⟨p, h, rfl⟩))
      have h' : assocFind (q :: rest) p.1 = assocFind rest p.1 := by
        simp [assocFind, hne]
      rw [h']
      exact ih hn.2 h

/-! ### C9: release with an unknown id -/

/-- C9: calling `release_account` with an id that has no entry in the
status map is a silent no-op: the pool state (every worker's status and
the rotation cursor) is returned unchanged and no error is raised. -/
theorem release_unknown_id_noop (m : AccountManager) (account_id : Nat)
    (success : Bool) (error_msg : Option String) (now : Int)
    (h : assocFind m.account_status account_id = none) :
    release_account m account_id success error_msg now = m := by
  simp [release_account, h]

/-- Witness for C9 at a concrete input: releasing id 7 on the fresh
(empty) pool returns it unchanged. -/
theorem release_unknown_id_noop_witness :
    release_account initMgr 7 true none 0 = initMgr :=
  release_unknown_id_noop initMgr 7 true none 0 rfl

/-! ### C7: health summary formulas -/

/-- C7: `get_health_summary` reports `health_percentage =
connected/active * 100` and `average_load_per_account = totalLoad/active`,
both 0 when there is no active worker, where active, connected and
totalLoad are the count/sum over the current worker statuses. -/
theorem health_summary_formulas (m : AccountManager) :
    (get_health_summary m).active_accounts
        = m.account_status.countP (fun p => p.2.is_active) ∧
    (get_health_summary m).connected_accounts
        = m.account_status.countP (fun p => p.2.is_connected) ∧
    (get_health_summary m).total_current_load
        = (m.account_status.map (fun p => p.2.current_load)).sum ∧
    (get_health_summary m).health_percentage
        = (if (get_health_summary m).active_accounts = 0 then 0
           else ((get_health_summary m).connected_accounts : ℚ)
                  / ((get_health_summary m).active_accounts : ℚ) * 100) ∧
    (get_health_summary m).average_load_per_account
        = (if (get_health_summary m).active_accounts = 0 then 0
           else ((get_health_summary m).total_current_load : ℚ)
                  / ((get_health_summary m).active_accounts : ℚ)) := by
  have hact : (get_health_summary m).active_accounts
      = m.account_status.countP (fun p => p.2.is_active) := by
    simp only [get_health_summary, ← List.countP_eq_length_filter, List.countP_map]
    rfl
  have hcon : (get_health_summary m).connected_accounts
      = m.account_status.countP (fun p => p.2.is_connected) := by
    simp only [get_health_summary, ← List.countP_eq_length_filter, List.countP_map]
    rfl
  have hload : (get_health_summary m).total_current_load
      = (m.account_status.map (fun p => p.2.current_load)).sum := by
    simp only [get_health_summary, List.map_map]
    rfl
  refine ⟨hact, hcon, hload, ?_, ?_⟩
  · by_cases hz : (get_health_summary m).active_accounts = 0
    · rw [if_pos hz]
      have hz' : ((m.account_status.map Prod.snd).filter (·.is_active)).length = 0 := by
        have := hz
        simpa [get_health_summary] using this
      simp [get_health_summary, hz']
    · rw [if_neg hz]
      have hz' : ¬ ((m.account_status.map Prod.snd).filter (·.is_active)).length = 0 := by
        intro h
        exact hz (by simpa [get_health_summary] using h)
      simp [get_health_summary, hz', Nat.pos_of_ne_zero hz']
  · by_cases hz : (get_health_summary m).active_accounts = 0
    · rw [if_pos hz]
      have hz' : ((m.account_status.map Prod.snd).filter (·.is_active)).length = 0 := by
        simpa [get_health_summary] using hz
      simp [get_health_summary, hz']
    · rw [if_neg hz]
      have hz' : ¬ ((m.account_status.map Prod.snd).filter (·.is_active)).length = 0 := by
        intro h
        exact hz (by simpa [get_health_summary] using h)
      simp [get_health_summary, hz', Nat.pos_of_ne_zero hz']

/-! ### C4: the dispatcher retry bound -/

/-- C4 (code bug evidence): on a pool of three healthy workers where
every execution raises `FloodWaitError` (cooldown 10 s, simulated time
frozen at 0), `distribute_message_processing` makes 3
acquire-and-execute attempts for the single work item — more than the
1-initial-plus-1-retry bound the design states — because the code
recurses once per newly available account with no attempt counter. -/
theorem dispatch_floodwait_three_attempts :
    (distribute_message_processing 0
      [ExecOutcome.floodWait 10, ExecOutcome.floodWait 10, ExecOutcome.floodWait 10]
      poolThree).2.2 = 3 ∧
    2 < (distribute_message_processing 0
      [ExecOutcome.floodWait 10, ExecOutcome.floodWait 10, ExecOutcome.floodWait 10]
      poolThree).2.2 ∧
    (distribute_message_processing 0
      [ExecOutcome.floodWait 10, ExecOutcome.floodWait 10, ExecOutcome.floodWait 10]
      poolThree).1 = false :=
  ⟨rfl, by decide, rfl⟩

/-! ### Lemmas about the cooldown and reconnection paths -/

theorem set_account_unavailable_accounts (m : AccountManager) (id : Nat)
    (s now : Int) :
    (set_account_unavailable m id s now).accounts = m.accounts := by
  unfold set_account_unavailable
  split <;> rfl

theorem set_account_unavailable_rotation (m : AccountManager) (id : Nat)
    (s now : Int) :
    (set_account_unavailable m id s now).rotation_index = m.rotation_index := by
  unfold set_account_unavailable
  split <;> rfl

theorem set_account_unavailable_find_other (m : AccountManager) (id w : Nat)
    (s now : Int) (hw : w ≠ id) :
    assocFind (set_account_unavailable m id s now).account_status w
      = assocFind m.account_status w := by
  unfold set_account_unavailable
  split
  · simp [assocFind_assocUpdate, hw]
  · rfl

theorem set_account_unavailable_find_self (m : AccountManager) (id : Nat)
    (s now : Int) (st : AccountStatus)
    (h : assocFind m.account_status id = some st) :
    assocFind (set_account_unavailable m id s now).account_status id
      = some { st with
          next_available := some (now + s)
          is_connected := false
          last_error := some ("FloodWait for " ++ toString s ++ " seconds") } := by
  unfold set_account_unavailable
  rw [if_pos (by simp [h])]
  simp [assocFind_assocUpdate, h]

theorem reconnect_account_find_other (m : AccountManager) (account_id w : Nat)
    (hw : w ≠ account_id) :
    assocFind (reconnect_account m account_id).2.account_status w
      = assocFind m.account_status w := by
  unfold reconnect_account
  split
  · rfl
  · split
    · simp [assocFind_assocUpdate, hw]
    · split <;> simp [assocFind_assocUpdate, hw]

theorem reconnect_account_success (m : AccountManager) (account_id : Nat)
    (st : AccountStatus) (c : TelegramClient)
    (h1 : assocFind m.account_status account_id = some st)
    (h2 : assocFind m.accounts account_id = some c)
    (h3 : c.authorized = true) :
    reconnect_account m account_id =
      (true,
        { m with
          accounts := assocUpdate m.accounts account_id
            (fun c => { c with connected := true })
          account_status := assocUpdate m.account_status account_id
            (fun st => { st with
              is_connected := true
              next_available := none
              last_error := none }) }) := by
  unfold reconnect_account
  rw [h1, h2]
  simp [h3]

/-- Every index below `n` is hit by the ring-scan index formula
`(start + i) % n` for some `i < n`. -/
theorem ring_hit (n start j : Nat) (hj : j < n) :
    ∃ i, i ∈ List.range n ∧ (start + i) % n = j := by
  have hn : 0 < n := Nat.lt_of_le_of_lt (Nat.zero_le j) hj
  refine ⟨(j + n - start % n) % n, List.mem_range.mpr (Nat.mod_lt _ hn), ?_⟩
  have hsle : start % n ≤ start := Nat.mod_le _ _
  have hsn : start % n < n := Nat.mod_lt _ hn
  have hdm : n * (start / n) + start % n = start := Nat.div_add_mod start n
  rw [Nat.add_mod_mod]
  have he : start + (j + n - start % n) = n * (start / n) + j + n := by omega
  rw [he, Nat.add_mod_right, Nat.mul_add_mod]
  exact Nat.mod_eq_of_lt hj


/-- A worker whose status record is disconnected with an unexpired
cooldown (or absent) is never the result of the ring scan, whatever else
the scan does along the way. -/
theorem acquireGo_blocked_ne (now : Int) (ids : List Nat) (start : Nat) (wid : Nat) :
    ∀ (is : List Nat) (m : AccountManager),
      (∀ st, assocFind m.account_status wid = some st →
        st.is_connected = false ∧ ∃ t, st.next_available = some t ∧ now < t) →
      ∀ a m', acquireGo now ids start m is = (some a, m') → a ≠ wid := by
  intro is
  induction is with
  | nil =>
    intro m hb a m' h
    simp [acquireGo] at h
  | cons i rest ih =>
    intro m hb a m' h heq
    simp only [acquireGo] at h
    cases hst : assocFind m.account_status (ids.getD ((start + i) % ids.length) 0) with
    | none =>
      simp only [hst] at h
      exact ih m hb a m' h heq
    | some status =>
      simp only [hst] at h
      cases hact : status.is_active with
      | false =>
        simp only [hact, Bool.not_false, if_true] at h
        exact ih m hb a m' h heq
      | true =>
        simp only [hact, Bool.not_true, Bool.false_eq_true, if_false] at h
        cases hconn : status.is_connected with
        | true =>
          simp only [hconn, if_true] at h
          cases hcl : assocFind m.accounts (ids.getD ((start + i) % ids.length) 0) with
          | none =>
            simp only [hcl] at h
            exact ih m hb a m' h heq
          | some client =>
            simp only [hcl] at h
            cases hcc : client.connected with
            | false =>
              simp only [hcc, Bool.false_eq_true, if_false] at h
              exact ih m hb a m' h heq
            | true =>
              simp only [hcc, if_true] at h
              have hids : ids.getD ((start + i) % ids.length) 0 = a :=
                Option.some.inj ((Prod.mk.injEq _ _ _ _).mp h).1
              rw [heq] at hids
              rw [hids] at hst
              obtain ⟨hc, _⟩ := hb status hst
              rw [hconn] at hc
              exact absurd hc (by simp)
        | false =>
          simp only [hconn, Bool.false_eq_true, if_false] at h
          cases hna : status.next_available with
          | none =>
            simp only [hna] at h
            exact ih m hb a m' h heq
          | some t =>
            simp only [hna] at h
            by_cases hge : now ≥ t
            · rw [if_pos hge] at h
              by_cases hid : ids.getD ((start + i) % ids.length) 0 = wid
              · rw [hid] at hst
                obtain ⟨_, t', hna', hlt⟩ := hb status hst
                rw [hna] at hna'
                obtain rfl := Option.some.inj hna'
                exact absurd hge (by omega)
              · cases hr : (reconnect_account m (ids.getD ((start + i) % ids.length) 0)).1 with
                | true =>
                  rw [hr] at h
                  simp only [if_true] at h
                  have hids : ids.getD ((start + i) % ids.length) 0 = a :=
                    Option.some.inj ((Prod.mk.injEq _ _ _ _).mp h).1
                  rw [heq] at hids
                  exact hid hids
                | false =>
                  rw [hr] at h
                  simp only [Bool.false_eq_true, if_false] at h
                  refine ih (reconnect_account m (ids.getD ((start + i) % ids.length) 0)).2
                    ?_ a m' h heq
                  intro st hstf
                  apply hb
                  rw [← hstf]
                  exact (reconnect_account_find_other m _ wid
                    (fun he => hid he.symm)).symm
            · rw [if_neg hge] at h
              exact ih m hb a m' h heq

/-- When worker `wid` is the only administratively active candidate, is
in its expired-cooldown state with an authorized client, the ring scan
reaches it, reconnects it and returns it, with the cooldown and error
cleared and the load incremented. -/
theorem acquireGo_reaches (now : Int) (ids : List Nat) (start : Nat) (wid : Nat)
    (stId : AccountStatus) (c : TelegramClient) (t : Int) :
    ∀ (is : List Nat) (m : AccountManager),
      (∀ w st, w ≠ wid → assocFind m.account_status w = some st →
        st.is_active = false) →
      assocFind m.account_status wid = some stId →
      stId.is_connected = false →
      stId.is_active = true →
      stId.next_available = some t →
      now ≥ t →
      assocFind m.accounts wid = some c →
      c.authorized = true →
      (∃ i ∈ is, ids.getD ((start + i) % ids.length) 0 = wid) →
      ∃ m', acquireGo now ids start m is = (some wid, m') ∧
        assocFind m'.account_status wid = some
          { stId with
            is_connected := true
            next_available := none
            last_error := none
            current_load := stId.current_load + 1 } := by
  intro is
  induction is with
  | nil =>
    intro m _ _ _ _ _ _ _ _ hhit
    simp at hhit
  | cons i rest ih =>
    intro m hothers hstatus hconn hactive hnext hnow hclient hauth hhit
    simp only [acquireGo]
    by_cases hid : ids.getD ((start + i) % ids.length) 0 = wid
    · rw [hid, hstatus]
      simp only [hactive, Bool.not_true, Bool.false_eq_true, if_false, hconn, hnext]
      rw [if_pos hnow]
      rw [reconnect_account_success m wid stId c hstatus hclient hauth]
      simp only [if_true]
      refine ⟨_, rfl, ?_⟩
      simp [commitAcquire, assocFind_assocUpdate, hstatus, hactive]
    · cases hst : assocFind m.account_status (ids.getD ((start + i) % ids.length) 0) with
      | none =>
        simp only [hst]
        refine ih m hothers hstatus hconn hactive hnext hnow hclient hauth ?_
        obtain ⟨i', hi', hgd⟩ := hhit
        rcases List.mem_cons.mp hi' with rfl | hi'
        · exact absurd hgd hid
        · exact ⟨i', hi', hgd⟩
      | some status =>
        have hinact : status.is_active = false :=
          hothers _ status hid hst
        simp only [hst, hinact, Bool.not_false, if_true]
        refine ih m hothers hstatus hconn hactive hnext hnow hclient hauth ?_
        obtain ⟨i', hi', hgd⟩ := hhit
        rcases List.mem_cons.mp hi' with rfl | hi'
        · exact absurd hgd hid
        · exact ⟨i', hi', hgd⟩

/-- C2: after `_set_account_unavailable(wid, s)` at time `now0` (the
`reportRateLimit` path of `handle_flood_wait`), `get_available_account`
never returns `wid` while the simulated time is before `now0 + s`; and
at any time `now2 ≥ now0 + s`, if `wid` is active with an authorized
client and is the only active candidate, `get_available_account`
selects `wid` again, clearing `next_available` and `last_error` and
restoring `is_connected`. -/
theorem rate_limit_cooldown (m : AccountManager) (wid : Nat) (s now0 : Int) :
    (∀ now1, now1 < now0 + s →
      ∀ a m', get_available_account (set_account_unavailable m wid s now0) now1
          = (some a, m') → a ≠ wid) ∧
    (∀ now2 c stId, now0 + s ≤ now2 →
      assocFind m.accounts wid = some c →
      c.authorized = true →
      assocFind m.account_status wid = some stId →
      stId.is_active = true →
      (∀ w st, w ≠ wid → assocFind m.account_status w = some st →
        st.is_active = false) →
      ∃ m', get_available_account (set_account_unavailable m wid s now0) now2
          = (some wid, m') ∧
        ∃ st', assocFind m'.account_status wid = some st' ∧
          st'.is_connected = true ∧ st'.next_available = none ∧
          st'.last_error = none) := by
  constructor
  · intro now1 hlt a m' h
    unfold get_available_account at h
    by_cases hemp : (set_account_unavailable m wid s now0).accounts.isEmpty
    · rw [if_pos hemp] at h
      simp at h
    · rw [if_neg hemp] at h
      refine acquireGo_blocked_ne now1 _ _ wid _ _ ?_ a m' h
      intro st hstf
      cases hs : assocFind m.account_status wid with
      | none =>
        rw [set_account_unavailable, if_neg (by simp [hs])] at hstf
        rw [hs] at hstf
        exact absurd hstf (by simp)
      | some st0 =>
        rw [set_account_unavailable_find_self m wid s now0 st0 hs] at hstf
        obtain rfl := Option.some.inj hstf
        exact ⟨rfl, now0 + s, rfl, hlt⟩
  · intro now2 c stId hge hclient hauth hstatus hactive hothers
    have haccs : (set_account_unavailable m wid s now0).accounts = m.accounts :=
      set_account_unavailable_accounts m wid s now0
    have hwmem : wid ∈ m.accounts.map Prod.fst :=
      (assocFind_isSome_iff_mem m.accounts wid).mp (by simp [hclient])
    have hnonnil : m.accounts ≠ [] := by
      intro h
      rw [h] at hwmem
      simp at hwmem
    have hemp : (set_account_unavailable m wid s now0).accounts.isEmpty = false := by
      rw [haccs]
      cases h : m.accounts.isEmpty
      · rfl
      · exact absurd (List.isEmpty_iff.mp h) hnonnil
    have hstatus' : assocFind (set_account_unavailable m wid s now0).account_status wid
        = some { stId with
            next_available := some (now0 + s)
            is_connected := false
            last_error := some ("FloodWait for " ++ toString s ++ " seconds") } :=
      set_account_unavailable_find_self m wid s now0 stId hstatus
    have hothers' : ∀ w st, w ≠ wid →
        assocFind (set_account_unavailable m wid s now0).account_status w = some st →
        st.is_active = false := by
      intro w st hw hf
      rw [set_account_unavailable_find_other m wid w s now0 hw] at hf
      exact hothers w st hw hf
    have hclient' : assocFind (set_account_unavailable m wid s now0).accounts wid
        = some c := by rw [haccs]; exact hclient
    -- the ring scan hits wid
    obtain ⟨j, hj, hgd⟩ := List.mem_iff_getElem.mp
      ((by rw [haccs]; exact hwmem :
        wid ∈ (set_account_unavailable m wid s now0).accounts.map Prod.fst))
    obtain ⟨i, hi, hidx⟩ := ring_hit
      ((set_account_unavailable m wid s now0).accounts.map Prod.fst).length
      (set_account_unavailable m wid s now0).rotation_index j hj
    have hhit : ∃ i ∈ List.range
        ((set_account_unavailable m wid s now0).accounts.map Prod.fst).length,
        ((set_account_unavailable m wid s now0).accounts.map Prod.fst).getD
          (((set_account_unavailable m wid s now0).rotation_index + i) %
            ((set_account_unavailable m wid s now0).accounts.map Prod.fst).length) 0
          = wid := by
      refine ⟨i, hi, ?_⟩
      rw [hidx, List.getD_eq_getElem _ 0 hj, hgd]
    obtain ⟨m', hgo, hfind⟩ := acquireGo_reaches now2
      ((set_account_unavailable m wid s now0).accounts.map Prod.fst)
      (set_account_unavailable m wid s now0).rotation_index wid
      { stId with
        next_available := some (now0 + s)
        is_connected := false
        last_error := some ("FloodWait for " ++ toString s ++ " seconds") }
      c (now0 + s)
      (List.range ((set_account_unavailable m wid s now0).accounts.map Prod.fst).length)
      (set_account_unavailable m wid s now0)
      hothers' hstatus' rfl (by simpa using hactive) rfl hge hclient' hauth hhit
    refine ⟨m', ?_, _, hfind, rfl, rfl, rfl⟩
    unfold get_available_account
    rw [hemp]
    simpa using hgo

/-- Witness for C2 at a concrete input: worker 5 rate-limited for 30 s at
time 0 is not selectable at time 10 and is selected again at time 30
with its cooldown and error cleared. -/
theorem rate_limit_cooldown_witness :
    (∀ a m', get_available_account (set_account_unavailable poolOne 5 30 0) 10
        = (some a, m') → a ≠ 5) ∧
    (∃ m', get_available_account (set_account_unavailable poolOne 5 30 0) 30
        = (some 5, m') ∧
      ∃ st', assocFind m'.account_status 5 = some st' ∧
        st'.is_connected = true ∧ st'.next_available = none ∧
        st'.last_error = none) := by
  constructor
  · exact (rate_limit_cooldown poolOne 5 30 0).1 10 (by decide)
  · refine (rate_limit_cooldown poolOne 5 30 0).2 30 ⟨true, true⟩ (mkStatus 5)
      (by decide) rfl rfl rfl rfl ?_
    intro w st hw hf
    simp [poolOne, assocFind, Ne.symm hw] at hf

/-! ### Load accounting through the operations (C1) -/

theorem reconnect_account_loadOf (m : AccountManager) (aid : Nat) (w : Nat) :
    loadOf (reconnect_account m aid).2 w = loadOf m w := by
  unfold reconnect_account
  split
  · rfl
  · split
    · simp only [loadOf, assocFind_assocUpdate]
      by_cases hw : w = aid
      · subst hw
        cases assocFind m.account_status w <;> simp
      · simp [hw]
    · split <;>
      · simp only [loadOf, assocFind_assocUpdate]
        by_cases hw : w = aid
        · subst hw
          cases assocFind m.account_status w <;> simp
        · simp [hw]

theorem reconnect_account_status_isSome (m : AccountManager) (aid : Nat) (w : Nat) :
    (assocFind (reconnect_account m aid).2.account_status w).isSome
      = (assocFind m.account_status w).isSome := by
  unfold reconnect_account
  split
  · rfl
  · split
    · simp only [assocFind_assocUpdate]
      by_cases hw : w = aid
      · subst hw
        cases assocFind m.account_status w <;> simp
      · simp [hw]
    · split <;>
      · simp only [assocFind_assocUpdate]
        by_cases hw : w = aid
        · subst hw
          cases assocFind m.account_status w <;> simp
        · simp [hw]

theorem commitAcquire_loadOf (m : AccountManager) (aid i n : Nat) (w : Nat)
    (h : (assocFind m.account_status aid).isSome) :
    loadOf (commitAcquire m aid i n) w
      = if w = aid then loadOf m aid + 1 else loadOf m w := by
  simp only [commitAcquire, loadOf, assocFind_assocUpdate]
  by_cases hw : w = aid
  · subst hw
    obtain ⟨st, hst⟩ := Option.isSome_iff_exists.mp h
    simp [hst]
  · simp [hw]

theorem acquireGo_loadOf (now : Int) (ids : List Nat) (start : Nat) :
    ∀ (is : List Nat) (m : AccountManager) (w : Nat),
      loadOf (acquireGo now ids start m is).2 w
        = loadOf m w
          + (if (acquireGo now ids start m is).1 = some w then 1 else 0) := by
  intro is
  induction is with
  | nil =>
    intro m w
    simp [acquireGo]
  | cons i rest ih =>
    intro m w
    simp only [acquireGo]
    cases hst : assocFind m.account_status (ids.getD ((start + i) % ids.length) 0) with
    | none =>
      simp only [hst]
      exact ih m w
    | some status =>
      simp only [hst]
      rcases (Bool.eq_false_or_eq_true status.is_active).symm with hact | hact
      · simp only [hact, Bool.not_false, if_true]
        exact ih m w
      · simp only [hact, Bool.not_true, Bool.false_eq_true, if_false]
        rcases (Bool.eq_false_or_eq_true status.is_connected).symm with hconn | hconn
        · simp only [hconn, Bool.false_eq_true, if_false]
          cases hna : status.next_available with
          | none =>
            simp only [hna]
            exact ih m w
          | some t =>
            simp only [hna]
            split
            · rcases (Bool.eq_false_or_eq_true
                (reconnect_account m (ids.getD ((start + i) % ids.length) 0)).1).symm with hr | hr
              · simp only [hr, Bool.false_eq_true, if_false]
                rw [ih _ w, reconnect_account_loadOf]
              · simp only [hr, if_true]
                rw [commitAcquire_loadOf _ _ _ _ w
                  (by rw [reconnect_account_status_isSome, hst]; rfl)]
                rw [reconnect_account_loadOf, reconnect_account_loadOf]
                by_cases hw : w = ids.getD ((start + i) % ids.length) 0
                · subst hw
                  simp
                · have hsome : ¬ (some (ids.getD ((start + i) % ids.length) 0) = some w) :=
                    fun h => hw (Option.some.inj h).symm
                  rw [if_neg hw, if_neg hsome]
                  simp
            · exact ih m w
        · simp only [hconn, if_true]
          cases hcl : assocFind m.accounts (ids.getD ((start + i) % ids.length) 0) with
          | none =>
            simp only [hcl]
            exact ih m w
          | some client =>
            simp only [hcl]
            rcases (Bool.eq_false_or_eq_true client.connected).symm with hcc | hcc
            · simp only [hcc, Bool.false_eq_true, if_false]
              exact ih m w
            · simp only [hcc, if_true]
              rw [commitAcquire_loadOf m _ _ _ w (by rw [hst]; rfl)]
              by_cases hw : w = ids.getD ((start + i) % ids.length) 0
              · subst hw
                simp
              · have hsome : ¬ (some (ids.getD ((start + i) % ids.length) 0) = some w) :=
                  fun h => hw (Option.some.inj h).symm
                rw [if_neg hw, if_neg hsome]
                simp

theorem get_available_account_loadOf (m : AccountManager) (now : Int) (w : Nat) :
    loadOf (get_available_account m now).2 w
      = loadOf m w
        + (if (get_available_account m now).1 = some w then 1 else 0) := by
  unfold get_available_account
  split
  · simp
  · exact acquireGo_loadOf now _ _ _ m w

theorem release_account_loadOf (m : AccountManager) (id' : Nat) (success : Bool)
    (msg : Option String) (now : Int) (w : Nat) :
    loadOf (release_account m id' success msg now) w
      = if w = id' ∧ (assocFind m.account_status id').isSome
        then max 0 (loadOf m id' - 1) else loadOf m w := by
  unfold release_account
  by_cases hs : (assocFind m.account_status id').isSome
  · rw [if_pos hs]
    obtain ⟨st, hst⟩ := Option.isSome_iff_exists.mp hs
    simp only [loadOf, assocFind_assocUpdate]
    by_cases hw : w = id'
    · subst hw
      cases success <;> simp [hst, hs]
    · simp [hw]
  · rw [if_neg hs]
    simp [hs]

/-- C1: along any sequence of `acquire` (`get_available_account`) and
`release` (`release_account`) operations, every worker's `currentLoad`
stays ≥ 0 and equals the spec-side count of outstanding reservations on
it (acquires that returned the worker and have not been released),
starting from any pool state whose loads match the ledger; in
particular double releases never drive `currentLoad` negative. -/
theorem load_eq_outstanding (ops : List AROp) :
    ∀ (m0 : AccountManager) (o0 : Nat → Nat),
      (∀ w, loadOf m0 w = (o0 w : Int)) →
      ∀ w, loadOf (runAR m0 o0 ops).1 w = ((runAR m0 o0 ops).2 w : Int) ∧
        0 ≤ loadOf (runAR m0 o0 ops).1 w := by
  induction ops with
  | nil =>
    intro m0 o0 h0 w
    simp only [runAR]
    refine ⟨h0 w, ?_⟩
    rw [h0 w]
    exact Int.natCast_nonneg _
  | cons op ops ih =>
    intro m0 o0 h0 w
    have hstep : ∀ v, loadOf (applyAR m0 op) v
        = ((outstandingStep m0 o0 op v : Nat) : Int) := by
      intro v
      cases op with
      | acquire now =>
        simp only [applyAR, outstandingStep]
        rw [get_available_account_loadOf m0 now v]
        cases hres : (get_available_account m0 now).1 with
        | none =>
          simp [h0 v]
        | some a =>
          by_cases hv : v = a
          · subst hv
            simp [h0 v]
          · have : ¬ (some a = some v) := fun h => hv (Option.some.inj h).symm
            simp [hv, this, h0 v]
      | release id' success msg now =>
        simp only [applyAR, outstandingStep]
        rw [release_account_loadOf m0 id' success msg now v]
        by_cases hv : v = id'
        · subst hv
          by_cases hs : (assocFind m0.account_status v).isSome
          · rw [if_pos ⟨rfl, hs⟩]
            rw [if_pos rfl]
            have := h0 v
            omega
          · rw [if_neg (by intro h; exact hs h.2)]
            rw [if_pos rfl]
            have hnone : assocFind m0.account_status v = none :=
              Option.not_isSome_iff_eq_none.mp hs
            have hz : loadOf m0 v = 0 := by simp [loadOf, hnone]
            have := h0 v
            omega
        · rw [if_neg (by intro h; exact hv h.1)]
          rw [if_neg hv]
          exact h0 v
    have : runAR m0 o0 (op :: ops)
        = runAR (applyAR m0 op) (outstandingStep m0 o0 op) ops := rfl
    rw [this]
    exact ih (applyAR m0 op) (outstandingStep m0 o0 op) hstep w

/-- Witness for C1 at a concrete input: the one-worker pool, a trace that
acquires once and then releases three times (two of them spurious),
checked at worker 5. -/
theorem load_eq_outstanding_witness :
    loadOf (runAR poolOne (fun _ => 0)
        [AROp.acquire 0, AROp.release 5 true none 0,
         AROp.release 5 true none 0, AROp.release 5 false none 0]).1 5
      = ((runAR poolOne (fun _ => 0)
        [AROp.acquire 0, AROp.release 5 true none 0,
         AROp.release 5 true none 0, AROp.release 5 false none 0]).2 5 : Int) ∧
    0 ≤ loadOf (runAR poolOne (fun _ => 0)
        [AROp.acquire 0, AROp.release 5 true none 0,
         AROp.release 5 true none 0, AROp.release 5 false none 0]).1 5 :=
  load_eq_outstanding
    [AROp.acquire 0, AROp.release 5 true none 0,
     AROp.release 5 true none 0, AROp.release 5 false none 0]
    poolOne (fun _ => 0)
    (by
      intro w
      by_cases h : (5 : Nat) = w <;>
        simp [loadOf, poolOne, assocFind, mkStatus, h])
    5

/-! ### The ring scan visits every candidate exactly once (C5) -/

theorem map_getD_range (l : List Nat) :
    (List.range l.length).map (fun j => l.getD j 0) = l := by
  apply List.ext_getElem
  · simp
  · intro n h1 h2
    simp only [List.getElem_map, List.getElem_range]
    exact List.getD_eq_getElem l 0 h2

theorem ring_idx_perm (n start : Nat) :
    ((List.range n).map (fun i => (start + i) % n)).Perm (List.range n) := by
  cases n with
  | zero => simp
  | succ n' =>
    have hmem : ∀ x ∈ (List.range (n' + 1)).map (fun i => (start + i) % (n' + 1)),
        x ∈ List.range (n' + 1) := by
      intro x hx
      obtain ⟨i, _, rfl⟩ := List.mem_map.mp hx
      exact List.mem_range.mpr (Nat.mod_lt _ (Nat.succ_pos n'))
    have hinj : ∀ x ∈ List.range (n' + 1), ∀ y ∈ List.range (n' + 1),
        (start + x) % (n' + 1) = (start + y) % (n' + 1) → x = y := by
      intro x hx y hy hxy
      have hx' := List.mem_range.mp hx
      have hy' := List.mem_range.mp hy
      have hmx : x % (n' + 1) = y % (n' + 1) :=
        Nat.ModEq.add_left_cancel (Nat.ModEq.refl start) hxy
      rwa [Nat.mod_eq_of_lt hx', Nat.mod_eq_of_lt hy'] at hmx
    have hnd : ((List.range (n' + 1)).map (fun i => (start + i) % (n' + 1))).Nodup :=
      (List.nodup_range _).map_on hinj
    refine (List.subperm_of_subset hnd hmem).perm_of_length_le ?_
    simp

theorem ringScan_perm (ids : List Nat) (start : Nat) :
    (ringScan ids start).Perm ids := by
  unfold ringScan
  have hcomp : (List.range ids.length).map
      (fun i => ids.getD ((start + i) % ids.length) 0)
      = ((List.range ids.length).map (fun i => (start + i) % ids.length)).map
          (fun j => ids.getD j 0) := by
    rw [List.map_map]
    rfl
  rw [hcomp]
  have h1 := (ring_idx_perm ids.length start).map (fun j => ids.getD j 0)
  rw [map_getD_range] at h1
  exact h1

/-- A successful ring scan returns one of the candidates the index
formula enumerates over the steps it was given. -/
theorem acquireGo_result_mem (now : Int) (ids : List Nat) (start : Nat) :
    ∀ (is : List Nat) (m : AccountManager) (a : Nat) (m' : AccountManager),
      acquireGo now ids start m is = (some a, m') →
      ∃ i ∈ is, a = ids.getD ((start + i) % ids.length) 0 := by
  intro is
  induction is with
  | nil =>
    intro m a m' h
    simp [acquireGo] at h
  | cons i rest ih =>
    intro m a m' h
    simp only [acquireGo] at h
    cases hst : assocFind m.account_status (ids.getD ((start + i) % ids.length) 0) with
    | none =>
      simp only [hst] at h
      obtain ⟨i', hi', he⟩ := ih m a m' h
      exact ⟨i', List.mem_cons_of_mem _ hi', he⟩
    | some status =>
      simp only [hst] at h
      rcases (Bool.eq_false_or_eq_true status.is_active).symm with hact | hact
      · simp only [hact, Bool.not_false, if_true] at h
        obtain ⟨i', hi', he⟩ := ih m a m' h
        exact ⟨i', List.mem_cons_of_mem _ hi', he⟩
      · simp only [hact, Bool.not_true, Bool.false_eq_true, if_false] at h
        rcases (Bool.eq_false_or_eq_true status.is_connected).symm with hconn | hconn
        · simp only [hconn, Bool.false_eq_true, if_false] at h
          cases hna : status.next_available with
          | none =>
            simp only [hna] at h
            obtain ⟨i', hi', he⟩ := ih m a m' h
            exact ⟨i', List.mem_cons_of_mem _ hi', he⟩
          | some t =>
            simp only [hna] at h
            split at h
            · rcases (Bool.eq_false_or_eq_true
                (reconnect_account m (ids.getD ((start + i) % ids.length) 0)).1).symm
                with hr | hr
              · simp only [hr, Bool.false_eq_true, if_false] at h
                obtain ⟨i', hi', he⟩ := ih _ a m' h
                exact ⟨i', List.mem_cons_of_mem _ hi', he⟩
              · simp only [hr, if_true] at h
                refine ⟨i, List.mem_cons_self _ _, ?_⟩
                exact (Option.some.inj ((Prod.mk.injEq _ _ _ _).mp h).1).symm
            · obtain ⟨i', hi', he⟩ := ih m a m' h
              exact ⟨i', List.mem_cons_of_mem _ hi', he⟩
        · simp only [hconn, if_true] at h
          cases hcl : assocFind m.accounts (ids.getD ((start + i) % ids.length) 0) with
          | none =>
            simp only [hcl] at h
            obtain ⟨i', hi', he⟩ := ih m a m' h
            exact ⟨i', List.mem_cons_of_mem _ hi', he⟩
          | some client =>
            simp only [hcl] at h
            rcases (Bool.eq_false_or_eq_true client.connected).symm with hcc | hcc
            · simp only [hcc, Bool.false_eq_true, if_false] at h
              obtain ⟨i', hi', he⟩ := ih m a m' h
              exact ⟨i', List.mem_cons_of_mem _ hi', he⟩
            · simp only [hcc, if_true] at h
              refine ⟨i, List.mem_cons_self _ _, ?_⟩
              exact (Option.some.inj ((Prod.mk.injEq _ _ _ _).mp h).1).symm

/-- C5: after `remove_account` deletes a worker, the next full ring scan
over the remaining workers (positions `(rotationIndex + i) % |ids|` for
`i < |ids|`) is a permutation of the remaining worker list — no
remaining candidate is skipped and none is examined twice — and any
worker the next `get_available_account` returns is one of these scanned
candidates. -/
theorem remove_ring_scan_exact (m : AccountManager) (rid : Nat) :
    (ringScan ((remove_account m rid).2.accounts.map Prod.fst)
        (remove_account m rid).2.rotation_index).Perm
      ((remove_account m rid).2.accounts.map Prod.fst) ∧
    (ringScan ((remove_account m rid).2.accounts.map Prod.fst)
        (remove_account m rid).2.rotation_index).length
      = (remove_account m rid).2.accounts.length ∧
    (∀ now a m'',
      get_available_account (remove_account m rid).2 now = (some a, m'') →
      a ∈ ringScan ((remove_account m rid).2.accounts.map Prod.fst)
        (remove_account m rid).2.rotation_index) := by
  refine ⟨ringScan_perm _ _, by simp [ringScan], ?_⟩
  intro now a m'' h
  unfold get_available_account at h
  split at h
  · simp at h
  · obtain ⟨i, hi, he⟩ := acquireGo_result_mem now _ _ _ _ a m'' h
    subst he
    exact List.mem_map.mpr ⟨i, by simpa [ringScan] using hi, rfl⟩

/-- Witness for C5 at a concrete input: remove worker 2 from the
three-worker pool; the next acquire at time 0 returns worker 1, which is
among the scanned candidates. -/
theorem remove_ring_scan_exact_witness :
    1 ∈ ringScan (((remove_account poolThree 2).2).accounts.map Prod.fst)
      ((remove_account poolThree 2).2).rotation_index := by
  have h1 : (get_available_account (remove_account poolThree 2).2 0).1 = some 1 := by
    decide
  exact (remove_ring_scan_exact poolThree 2).2.2 0 1
    (get_available_account (remove_account poolThree 2).2 0).2
    (by rw [← h1])

/-! ### Round-robin fairness (C3) -/

theorem release_account_accounts (m : AccountManager) (id' : Nat) (success : Bool)
    (msg : Option String) (now : Int) :
    (release_account m id' success msg now).accounts = m.accounts := by
  unfold release_account
  split <;> rfl

theorem release_account_rotation (m : AccountManager) (id' : Nat) (success : Bool)
    (msg : Option String) (now : Int) :
    (release_account m id' success msg now).rotation_index = m.rotation_index := by
  unfold release_account
  split <;> rfl

theorem AllSelectable_of_update (m m' : AccountManager) (k : Nat)
    (f : AccountStatus → AccountStatus)
    (hacc : m'.accounts = m.accounts)
    (hsts : m'.account_status = assocUpdate m.account_status k f)
    (hf : ∀ st, (f st).is_active = st.is_active ∧
      (f st).is_connected = st.is_connected ∧
      (f st).next_available = st.next_available)
    (h : AllSelectable m) : AllSelectable m' := by
  obtain ⟨h1, h2, h3⟩ := h
  refine ⟨?_, ?_, ?_⟩
  · intro p hp
    rw [hsts] at hp
    obtain ⟨q, hq, hcase⟩ := mem_assocUpdate hp
    rcases hcase with ⟨hk, hpe⟩ | ⟨hk, hpe⟩
    · rw [hpe]
      obtain ⟨ha, hc, hn⟩ := h1 q hq
      obtain ⟨fa, fc, fn⟩ := hf q.2
      exact ⟨by rw [fa, ha], by rw [fc, hc], by rw [fn, hn]⟩
    · rw [hpe]
      exact h1 q hq
  · intro p hp
    rw [hacc] at hp
    exact h2 p hp
  · intro w hw
    rw [hacc] at hw
    rw [hsts, assocFind_assocUpdate]
    by_cases hwk : w = k
    · rw [if_pos hwk]
      have hs := h3 w hw
      rw [hwk] at hs
      cases hfind : assocFind m.account_status k with
      | none => rw [hfind] at hs; simp at hs
      | some st => simp
    · rw [if_neg hwk]
      exact h3 w hw

theorem AllSelectable_commit (m : AccountManager) (aid i n : Nat)
    (h : AllSelectable m) : AllSelectable (commitAcquire m aid i n) :=
  AllSelectable_of_update m _ aid
    (fun st => { st with current_load := st.current_load + 1 }) rfl rfl
    (fun _ => ⟨rfl, rfl, rfl⟩) h

theorem AllSelectable_release (m : AccountManager) (id' : Nat) (now : Int)
    (h : AllSelectable m) :
    AllSelectable (release_account m id' true none now) := by
  unfold release_account
  by_cases hs : (assocFind m.account_status id').isSome
  · rw [if_pos hs]
    exact AllSelectable_of_update m _ id'
      (fun st =>
        let st := { st with current_load := max 0 (st.current_load - 1) }
        let st :=
          if true then { st with messages_processed := st.messages_processed + 1 }
          else { st with error_count := st.error_count + 1, last_error := none }
        { st with last_used := some now }) rfl rfl
      (fun _ => ⟨rfl, rfl, rfl⟩) h
  · rw [if_neg hs]
    exact h

/-- When the candidate at the head of the remaining steps is active,
status-connected and its client is live, the scan accepts it at once. -/
theorem acquireGo_selectable_head (now : Int) (ids : List Nat) (start : Nat)
    (i : Nat) (rest : List Nat) (m : AccountManager)
    (st : AccountStatus) (c : TelegramClient)
    (hst : assocFind m.account_status (ids.getD ((start + i) % ids.length) 0)
      = some st)
    (hact : st.is_active = true)
    (hconn : st.is_connected = true)
    (hc : assocFind m.accounts (ids.getD ((start + i) % ids.length) 0) = some c)
    (hcc : c.connected = true) :
    acquireGo now ids start m (i :: rest)
      = (some (ids.getD ((start + i) % ids.length) 0),
         commitAcquire m (ids.getD ((start + i) % ids.length) 0)
           ((start + i) % ids.length) ids.length) := by
  simp only [acquireGo]
  rw [hst]
  simp only [hact, Bool.not_true, Bool.false_eq_true, if_false, hconn, if_true]
  rw [hc]
  simp only [hcc, if_true]

/-- Under full selectability the scan accepts its very first candidate:
the worker at ring position `rotationIndex % n`. -/
theorem acquire_selectable_step (m : AccountManager) (now : Int)
    (hsel : AllSelectable m) (hne : m.accounts ≠ []) :
    get_available_account m now
      = (some ((m.accounts.map Prod.fst).getD
            (m.rotation_index % (m.accounts.map Prod.fst).length) 0),
         commitAcquire m
           ((m.accounts.map Prod.fst).getD
             (m.rotation_index % (m.accounts.map Prod.fst).length) 0)
           (m.rotation_index % (m.accounts.map Prod.fst).length)
           (m.accounts.map Prod.fst).length) := by
  have hlenpos : 0 < (m.accounts.map Prod.fst).length := by
    rw [List.length_map]
    exact List.length_pos.mpr hne
  obtain ⟨k, hk⟩ : ∃ k, (m.accounts.map Prod.fst).length = k + 1 :=
    Nat.exists_eq_succ_of_ne_zero (Nat.pos_iff_ne_zero.mp hlenpos)
  have hemp : m.accounts.isEmpty = false := by
    cases hacc : m.accounts
    · exact absurd hacc hne
    · rfl
  have hidx : (m.rotation_index + 0) % (m.accounts.map Prod.fst).length
      < (m.accounts.map Prod.fst).length := Nat.mod_lt _ hlenpos
  have hmem : (m.accounts.map Prod.fst).getD
      ((m.rotation_index + 0) % (m.accounts.map Prod.fst).length) 0
      ∈ m.accounts.map Prod.fst := by
    rw [List.getD_eq_getElem _ 0 hidx]
    exact List.getElem_mem _
  obtain ⟨st, hst⟩ := Option.isSome_iff_exists.mp (hsel.2.2 _ hmem)
  have hmemp := assocFind_mem hst
  have hact : st.is_active = true := (hsel.1 _ hmemp).1
  have hconn : st.is_connected = true := (hsel.1 _ hmemp).2.1
  obtain ⟨c, hc⟩ := Option.isSome_iff_exists.mp
    ((assocFind_isSome_iff_mem m.accounts _).mpr hmem)
  have hcc : c.connected = true := hsel.2.1 _ (assocFind_mem hc)
  have hrange : List.range (m.accounts.map Prod.fst).length
      = 0 :: (List.range k).map Nat.succ := by
    rw [hk, List.range_succ_eq_map]
  unfold get_available_account
  simp only [hemp, Bool.false_eq_true, if_false]
  rw [hrange]
  rw [acquireGo_selectable_head now _ _ 0 _ m st c hst hact hconn hc hcc]
  simp only [Nat.add_zero]

/-- The ids chosen by `k` acquire/release rounds on a fully selectable
pool follow the ring order from the rotation cursor. -/
theorem acqRelTrace_formula (now : Int) :
    ∀ (k : Nat) (m : AccountManager), AllSelectable m → m.accounts ≠ [] →
      (acqRelTrace now k m).1
        = (List.range k).map (fun j =>
            (m.accounts.map Prod.fst).getD
              ((m.rotation_index + j) % (m.accounts.map Prod.fst).length) 0) := by
  intro k
  induction k with
  | zero =>
    intro m _ _
    simp [acqRelTrace]
  | succ k ih =>
    intro m hsel hne
    have hstep := acquire_selectable_step m now hsel hne
    have hround : acqRelRound now m
        = (some ((m.accounts.map Prod.fst).getD
            (m.rotation_index % (m.accounts.map Prod.fst).length) 0),
          release_account (commitAcquire m
            ((m.accounts.map Prod.fst).getD
              (m.rotation_index % (m.accounts.map Prod.fst).length) 0)
            (m.rotation_index % (m.accounts.map Prod.fst).length)
            (m.accounts.map Prod.fst).length)
            ((m.accounts.map Prod.fst).getD
              (m.rotation_index % (m.accounts.map Prod.fst).length) 0)
            true none now) := by
      unfold acqRelRound
      rw [hstep]
    set aid := (m.accounts.map Prod.fst).getD
      (m.rotation_index % (m.accounts.map Prod.fst).length) 0 with haid
    set M1 := release_account (commitAcquire m aid
      (m.rotation_index % (m.accounts.map Prod.fst).length)
      (m.accounts.map Prod.fst).length) aid true none now with hM1
    have hacc1 : M1.accounts = m.accounts := by
      rw [hM1, release_account_accounts]
      rfl
    have hrot1 : M1.rotation_index
        = (m.rotation_index % (m.accounts.map Prod.fst).length + 1)
            % (m.accounts.map Prod.fst).length := by
      rw [hM1, release_account_rotation]
      rfl
    have hsel1 : AllSelectable M1 := by
      rw [hM1]
      exact AllSelectable_release _ _ _ (AllSelectable_commit _ _ _ _ hsel)
    have hne1 : M1.accounts ≠ [] := by
      rw [hacc1]
      exact hne
    simp only [acqRelTrace, hround]
    rw [ih M1 hsel1 hne1, hacc1, hrot1]
    rw [List.range_succ_eq_map, List.map_cons, List.map_map]
    congr 1
    apply List.map_congr_left
    intro j _
    simp only [Function.comp, Nat.succ_eq_add_one]
    rw [Nat.mod_add_mod, Nat.add_assoc, Nat.mod_add_mod, Nat.add_comm 1 j]

/-- C3: on a pool whose workers are all selectable, `N = |workers|`
consecutive acquire-and-release(Success) rounds return exactly the ring
sequence from the rotation cursor: every worker exactly once (no worker
twice) before any repeat. -/
theorem round_robin_fairness (m : AccountManager) (now : Int)
    (hsel : AllSelectable m) (hne : m.accounts ≠ [])
    (hnodup : (m.accounts.map Prod.fst).Nodup) :
    (acqRelTrace now (m.accounts.map Prod.fst).length m).1
        = ringScan (m.accounts.map Prod.fst) m.rotation_index ∧
    (acqRelTrace now (m.accounts.map Prod.fst).length m).1.Nodup ∧
    ∀ w ∈ m.accounts.map Prod.fst,
      w ∈ (acqRelTrace now (m.accounts.map Prod.fst).length m).1 := by
  have heq : (acqRelTrace now (m.accounts.map Prod.fst).length m).1
      = ringScan (m.accounts.map Prod.fst) m.rotation_index :=
    acqRelTrace_formula now (m.accounts.map Prod.fst).length m hsel hne
  refine ⟨heq, ?_, ?_⟩
  · rw [heq]
    exact (ringScan_perm _ _).nodup_iff.mpr hnodup
  · intro w hw
    rw [heq]
    exact ((ringScan_perm _ _).mem_iff).mpr hw

/-- Witness for C3 at a concrete input: the three-worker pool yields the
ring sequence, with no worker repeated and all workers covered. -/
theorem round_robin_fairness_witness :
    (acqRelTrace 0 (poolThree.accounts.map Prod.fst).length poolThree).1
        = ringScan (poolThree.accounts.map Prod.fst) poolThree.rotation_index ∧
    (acqRelTrace 0 (poolThree.accounts.map Prod.fst).length poolThree).1.Nodup ∧
    ∀ w ∈ poolThree.accounts.map Prod.fst,
      w ∈ (acqRelTrace 0 (poolThree.accounts.map Prod.fst).length poolThree).1 :=
  round_robin_fairness poolThree 0
    (by
      refine ⟨?_, ?_, ?_⟩ <;> decide)
    (by decide) (by decide)

/-! ### Partial-success initialization (C6) -/

theorem add_account_fst_true (m : AccountManager) (a : Account) (now : Int) :
    (add_account m a (ConnectOutcome.ok true) now).1 = true := rfl

theorem add_account_fst_false (m : AccountManager) (a : Account)
    (oc : ConnectOutcome) (now : Int) (h : oc ≠ ConnectOutcome.ok true) :
    (add_account m a oc now).1 = false := by
  cases oc with
  | ok b =>
    cases b
    · rfl
    · exact absurd rfl h
  | floodWait s => rfl
  | failure msg => rfl

theorem set_account_unavailable_status_isSome (m : AccountManager) (id' : Nat)
    (s now : Int) (w : Nat) :
    (assocFind (set_account_unavailable m id' s now).account_status w).isSome
      = (assocFind m.account_status w).isSome := by
  unfold set_account_unavailable
  split
  · simp only [assocFind_assocUpdate]
    by_cases hw : w = id'
    · subst hw
      cases assocFind m.account_status w <;> simp
    · simp [hw]
  · rfl

theorem init_fold_count (now : Int) :
    ∀ (cfgs : List (Account × ConnectOutcome)) (m : AccountManager) (c0 : Nat),
      (cfgs.foldl (fun (acc : Nat × AccountManager) cfg =>
          let r := add_account acc.2 cfg.1 cfg.2 now
          (if r.1 then acc.1 + 1 else acc.1, r.2)) (c0, m)).1
        = c0 + (cfgs.filter (fun c => c.2 = ConnectOutcome.ok true)).length := by
  intro cfgs
  induction cfgs with
  | nil =>
    intro m c0
    simp
  | cons cfg rest ih =>
    intro m c0
    rw [List.foldl_cons]
    by_cases hc : cfg.2 = ConnectOutcome.ok true
    · rw [List.filter_cons_of_pos (by simp [hc])]
      have hb : (add_account m cfg.1 cfg.2 now).1 = true := by
        rw [hc]; rfl
      simp only [hb, if_true]
      rw [ih]
      simp only [List.length_cons]
      omega
    · rw [List.filter_cons_of_neg (by simp [hc])]
      have hb : (add_account m cfg.1 cfg.2 now).1 = false :=
        add_account_fst_false m cfg.1 cfg.2 now hc
      simp only [hb, Bool.false_eq_true, if_false]
      exact ih _ _

theorem init_fold_not_mem (now : Int) :
    ∀ (cfgs : List (Account × ConnectOutcome)) (m : AccountManager) (c0 : Nat)
      (w : Nat),
      (∀ cfg ∈ cfgs, cfg.1.id = w → cfg.2 ≠ ConnectOutcome.ok true) →
      assocFind m.accounts w = none →
      assocFind m.account_status w = none →
      assocFind (cfgs.foldl (fun (acc : Nat × AccountManager) cfg =>
          let r := add_account acc.2 cfg.1 cfg.2 now
          (if r.1 then acc.1 + 1 else acc.1, r.2)) (c0, m)).2.accounts w = none ∧
      assocFind (cfgs.foldl (fun (acc : Nat × AccountManager) cfg =>
          let r := add_account acc.2 cfg.1 cfg.2 now
          (if r.1 then acc.1 + 1 else acc.1, r.2)) (c0, m)).2.account_status w
        = none := by
  intro cfgs
  induction cfgs with
  | nil =>
    intro m c0 w _ h1 h2
    exact ⟨h1, h2⟩
  | cons cfg rest ih =>
    intro m c0 w hno h1 h2
    rw [List.foldl_cons]
    refine ih _ _ w (fun c hc => hno c (List.mem_cons_of_mem _ hc)) ?_ ?_
    · cases hoc : cfg.2 with
      | ok b =>
        cases b
        · simpa [add_account] using h1
        · have hid : ¬ (w = cfg.1.id) := by
            intro h
            exact hno cfg (List.mem_cons_self _ _) h.symm hoc
          simp only [add_account, hoc]
          rw [assocFind_assocInsert, if_neg hid]
          exact h1
      | floodWait s =>
        simp only [add_account, hoc]
        rw [set_account_unavailable_accounts]
        exact h1
      | failure msg =>
        simpa [add_account, hoc] using h1
    · cases hoc : cfg.2 with
      | ok b =>
        cases b
        · simpa [add_account] using h2
        · have hid : ¬ (w = cfg.1.id) := by
            intro h
            exact hno cfg (List.mem_cons_self _ _) h.symm hoc
          simp only [add_account, hoc]
          rw [assocFind_assocInsert, if_neg hid]
          exact h2
      | floodWait s =>
        simp only [add_account, hoc]
        apply Option.not_isSome_iff_eq_none.mp
        rw [set_account_unavailable_status_isSome, h2]
        simp
      | failure msg =>
        simpa [add_account, hoc] using h2

theorem get_available_account_result_mem (m : AccountManager) (now : Int)
    (a : Nat) (m'' : AccountManager)
    (h : get_available_account m now = (some a, m'')) :
    a ∈ m.accounts.map Prod.fst := by
  unfold get_available_account at h
  split at h
  · simp at h
  · obtain ⟨i, hi, he⟩ := acquireGo_result_mem now _ _ _ _ a m'' h
    have hn : 0 < (m.accounts.map Prod.fst).length :=
      Nat.lt_of_le_of_lt (Nat.zero_le _) (List.mem_range.mp hi)
    have hidx : (m.rotation_index + i) % (m.accounts.map Prod.fst).length
        < (m.accounts.map Prod.fst).length := Nat.mod_lt _ hn
    rw [he, List.getD_eq_getElem _ 0 hidx]
    exact List.getElem_mem _

/-- C6: `initialize_accounts` attempts every configured worker, reports
partial success (true exactly when at least one worker initialized,
where the initialized count equals the number of configs whose
connection came up authorized), and a worker whose connection fails
authorization is stored nowhere: it has no client, no status record, is
never returned by `get_available_account`, and never appears in the
status listing. -/
theorem initialize_partial_success (cfgs : List (Account × ConnectOutcome))
    (now : Int) (bad : Account)
    (hmem : (bad, ConnectOutcome.ok false) ∈ cfgs)
    (hnodup : (cfgs.map (fun c => c.1.id)).Nodup) :
    ((initialize_accounts initMgr cfgs now).1 = true ↔
      0 < initializedCount initMgr cfgs now) ∧
    initializedCount initMgr cfgs now
      = (cfgs.filter (fun c => c.2 = ConnectOutcome.ok true)).length ∧
    assocFind (initialize_accounts initMgr cfgs now).2.accounts bad.id = none ∧
    assocFind (initialize_accounts initMgr cfgs now).2.account_status bad.id
      = none ∧
    (∀ now2 a m'',
      get_available_account (initialize_accounts initMgr cfgs now).2 now2
        = (some a, m'') → a ≠ bad.id) ∧
    (∀ row ∈ get_account_stats (initialize_accounts initMgr cfgs now).2,
      row.id ≠ bad.id) := by
  have hne : cfgs ≠ [] := by
    intro h
    rw [h] at hmem
    simp at hmem
  have hempty : cfgs.isEmpty = false := by
    cases h : cfgs.isEmpty
    · rfl
    · exact absurd (List.isEmpty_iff.mp h) hne
  have hfst : (initialize_accounts initMgr cfgs now).1
      = decide (0 < initializedCount initMgr cfgs now) := by
    unfold initialize_accounts initializedCount
    simp only [hempty, Bool.false_eq_true, if_false]
  have hsnd : (initialize_accounts initMgr cfgs now).2
      = (cfgs.foldl (fun (acc : Nat × AccountManager) cfg =>
          let r := add_account acc.2 cfg.1 cfg.2 now
          (if r.1 then acc.1 + 1 else acc.1, r.2)) (0, initMgr)).2 := by
    unfold initialize_accounts
    simp only [hempty, Bool.false_eq_true, if_false]
  have hno : ∀ cfg ∈ cfgs, cfg.1.id = bad.id → cfg.2 ≠ ConnectOutcome.ok true := by
    intro c hc hid hok
    have hceq : c = (bad, ConnectOutcome.ok false) :=
      List.inj_on_of_nodup_map hnodup hc hmem (by simpa using hid)
    rw [hceq] at hok
    simp at hok
  have hkeys := init_fold_not_mem now cfgs initMgr 0 bad.id hno rfl rfl
  have hacc_none : assocFind (initialize_accounts initMgr cfgs now).2.accounts
      bad.id = none := by
    rw [hsnd]
    exact hkeys.1
  have hsts_none : assocFind
      (initialize_accounts initMgr cfgs now).2.account_status bad.id = none := by
    rw [hsnd]
    exact hkeys.2
  refine ⟨?_, ?_, hacc_none, hsts_none, ?_, ?_⟩
  · rw [hfst]
    exact decide_eq_true_iff
  · unfold initializedCount
    rw [init_fold_count now cfgs initMgr 0]
    omega
  · intro now2 a m'' h heq
    have hmem' := get_available_account_result_mem _ now2 a m'' h
    rw [heq] at hmem'
    have := (assocFind_isSome_iff_mem _ bad.id).mpr hmem'
    rw [hacc_none] at this
    simp at this
  · intro row hrow heq
    obtain ⟨p, hp, hpe⟩ := List.mem_map.mp hrow
    have hpid : p.1 = bad.id := by
      rw [← heq, ← hpe]
    have hk : p.1 ∈ (initialize_accounts initMgr cfgs now).2.account_status.map
        Prod.fst := List.mem_map.mpr ⟨p, hp, rfl⟩
    rw [hpid] at hk
    have := (assocFind_isSome_iff_mem _ bad.id).mpr hk
    rw [hsts_none] at this
    simp at this

/-- Witness for C6 at a concrete input: two valid configs and one with
bad credentials (id 9); the bad-credential worker gets no client entry. -/
theorem initialize_partial_success_witness :
    assocFind (initialize_accounts initMgr
      [({ id := 1, username := "a", phone := "", api_id := 0, api_hash := "",
          session_file := none, last_used := none, messages_processed := 0,
          error_count := 0 }, ConnectOutcome.ok true),
       ({ id := 2, username := "b", phone := "", api_id := 0, api_hash := "",
          session_file := none, last_used := none, messages_processed := 0,
          error_count := 0 }, ConnectOutcome.ok true),
       ({ id := 9, username := "bad", phone := "", api_id := 0, api_hash := "",
          session_file := none, last_used := none, messages_processed := 0,
          error_count := 0 }, ConnectOutcome.ok false)] 0).2.accounts 9 = none :=
  (initialize_partial_success
    [({ id := 1, username := "a", phone := "", api_id := 0, api_hash := "",
        session_file := none, last_used := none, messages_processed := 0,
        error_count := 0 }, ConnectOutcome.ok true),
     ({ id := 2, username := "b", phone := "", api_id := 0, api_hash := "",
        session_file := none, last_used := none, messages_processed := 0,
        error_count := 0 }, ConnectOutcome.ok true),
     ({ id := 9, username := "bad", phone := "", api_id := 0, api_hash := "",
        session_file := none, last_used := none, messages_processed := 0,
        error_count := 0 }, ConnectOutcome.ok false)] 0
    { id := 9, username := "bad", phone := "", api_id := 0, api_hash := "",
      session_file := none, last_used := none, messages_processed := 0,
      error_count := 0 }
    (by decide) (by decide)).2.2.1

/-! ### Invariants of states reachable by the public operations (C8, C10) -/

/-- The ring scan transforms the pool only through `reconnect_account`
(invoked on an active, disconnected candidate) and `commitAcquire`, so
any property preserved by those is preserved by the scan. -/
theorem acquireGo_preserves (Q : AccountManager → Prop) (now : Int)
    (ids : List Nat) (start : Nat)
    (hrec : ∀ m aid st, Q m → assocFind m.account_status aid = some st →
      st.is_active = true → st.is_connected = false →
      Q (reconnect_account m aid).2)
    (hcom : ∀ m aid i n, Q m → Q (commitAcquire m aid i n)) :
    ∀ (is : List Nat) (m : AccountManager), Q m →
      Q (acquireGo now ids start m is).2 := by
  intro is
  induction is with
  | nil =>
    intro m hQ
    simpa [acquireGo] using hQ
  | cons i rest ih =>
    intro m hQ
    simp only [acquireGo]
    cases hst : assocFind m.account_status (ids.getD ((start + i) % ids.length) 0) with
    | none =>
      simp only [hst]
      exact ih m hQ
    | some status =>
      simp only [hst]
      rcases (Bool.eq_false_or_eq_true status.is_active).symm with hact | hact
      · simp only [hact, Bool.not_false, if_true]
        exact ih m hQ
      · simp only [hact, Bool.not_true, Bool.false_eq_true, if_false]
        rcases (Bool.eq_false_or_eq_true status.is_connected).symm with hconn | hconn
        · simp only [hconn, Bool.false_eq_true, if_false]
          cases hna : status.next_available with
          | none =>
            simp only [hna]
            exact ih m hQ
          | some t =>
            simp only [hna]
            split
            · have hQ2 := hrec m _ status hQ hst hact hconn
              rcases (Bool.eq_false_or_eq_true
                (reconnect_account m (ids.getD ((start + i) % ids.length) 0)).1).symm
                with hr | hr
              · simp only [hr, Bool.false_eq_true, if_false]
                exact ih _ hQ2
              · simp only [hr, if_true]
                exact hcom _ _ _ _ hQ2
            · exact ih m hQ
        · simp only [hconn, if_true]
          cases hcl : assocFind m.accounts (ids.getD ((start + i) % ids.length) 0) with
          | none =>
            simp only [hcl]
            exact ih m hQ
          | some client =>
            simp only [hcl]
            rcases (Bool.eq_false_or_eq_true client.connected).symm with hcc | hcc
            · simp only [hcc, Bool.false_eq_true, if_false]
              exact ih m hQ
            · simp only [hcc, if_true]
              exact hcom _ _ _ _ hQ

theorem get_available_account_preserves (Q : AccountManager → Prop) (now : Int)
    (hrec : ∀ m aid st, Q m → assocFind m.account_status aid = some st →
      st.is_active = true → st.is_connected = false →
      Q (reconnect_account m aid).2)
    (hcom : ∀ m aid i n, Q m → Q (commitAcquire m aid i n)) :
    ∀ (m : AccountManager), Q m → Q (get_available_account m now).2 := by
  intro m hQ
  unfold get_available_account
  split
  · exact hQ
  · exact acquireGo_preserves Q now _ _ hrec hcom _ m hQ

theorem init_fold_preserves (Q : AccountManager → Prop) (now : Int)
    (hadd : ∀ m a oc, Q m → Q (add_account m a oc now).2) :
    ∀ (cfgs : List (Account × ConnectOutcome)) (m : AccountManager) (c0 : Nat),
      Q m →
      Q ((cfgs.foldl (fun (acc : Nat × AccountManager) cfg =>
          let r := add_account acc.2 cfg.1 cfg.2 now
          (if r.1 then acc.1 + 1 else acc.1, r.2)) (c0, m)).2) := by
  intro cfgs
  induction cfgs with
  | nil =>
    intro m c0 hQ
    exact hQ
  | cons cfg rest ih =>
    intro m c0 hQ
    rw [List.foldl_cons]
    exact ih _ _ (hadd m cfg.1 cfg.2 hQ)

/-- Preservation of a pool property by every public operation, given
preservation by the primitive mutations. -/
theorem applyOp_preserves (Q : AccountManager → Prop)
    (hadd : ∀ m a oc now, Q m → Q (add_account m a oc now).2)
    (hrec : ∀ m aid st, Q m → assocFind m.account_status aid = some st →
      st.is_active = true → st.is_connected = false →
      Q (reconnect_account m aid).2)
    (hcom : ∀ m aid i n, Q m → Q (commitAcquire m aid i n))
    (hrel : ∀ m id' s msg now, Q m → Q (release_account m id' s msg now))
    (hset : ∀ m id' s now, Q m → Q (set_account_unavailable m id' s now))
    (hrem : ∀ m id', Q m → Q (remove_account m id').2) :
    ∀ (m : AccountManager) (op : Op), Q m → Q (applyOp m op) := by
  intro m op hQ
  cases op with
  | add a oc now => exact hadd m a oc now hQ
  | initAccounts cfgs now =>
    simp only [applyOp]
    unfold initialize_accounts
    split
    · exact hQ
    · exact init_fold_preserves Q now (fun m a oc h => hadd m a oc now h)
        cfgs m 0 hQ
  | acquire now =>
    exact get_available_account_preserves Q now hrec hcom m hQ
  | release id' s msg now => exact hrel m id' s msg now hQ
  | reportRateLimit id' w now =>
    simp only [applyOp]
    unfold handle_flood_wait
    exact get_available_account_preserves Q now hrec hcom _
      (hset m id' w now hQ)
  | remove id' => exact hrem m id' hQ

theorem runOps_preserves (Q : AccountManager → Prop)
    (hinit : Q initMgr)
    (hadd : ∀ m a oc now, Q m → Q (add_account m a oc now).2)
    (hrec : ∀ m aid st, Q m → assocFind m.account_status aid = some st →
      st.is_active = true → st.is_connected = false →
      Q (reconnect_account m aid).2)
    (hcom : ∀ m aid i n, Q m → Q (commitAcquire m aid i n))
    (hrel : ∀ m id' s msg now, Q m → Q (release_account m id' s msg now))
    (hset : ∀ m id' s now, Q m → Q (set_account_unavailable m id' s now))
    (hrem : ∀ m id', Q m → Q (remove_account m id').2) :
    ∀ ops : List Op, Q (runOps ops) := by
  have hgen : ∀ (ops : List Op) (m : AccountManager), Q m →
      Q (ops.foldl applyOp m) := by
    intro ops
    induction ops with
    | nil => intro m hQ; exact hQ
    | cons op rest ih =>
      intro m hQ
      rw [List.foldl_cons]
      exact ih _ (applyOp_preserves Q hadd hrec hcom hrel hset hrem m op hQ)
  intro ops
  exact hgen ops initMgr hinit

theorem invCN_assocUpdate {l : List (Nat × AccountStatus)} {k : Nat}
    {f : AccountStatus → AccountStatus}
    (h : ∀ p ∈ l, p.2.is_connected = true → p.2.next_available = none)
    (hf : ∀ st, (st.is_connected = true → st.next_available = none) →
      ((f st).is_connected = true → (f st).next_available = none)) :
    ∀ p ∈ assocUpdate l k f,
      p.2.is_connected = true → p.2.next_available = none := by
  intro p hp
  obtain ⟨q, hq, hcase⟩ := mem_assocUpdate hp
  rcases hcase with ⟨hk, hpe⟩ | ⟨hk, hpe⟩
  · rw [hpe]
    exact hf q.2 (h q hq)
  · rw [hpe]
    exact h q hq

theorem invCN_set (m : AccountManager) (id' : Nat) (s now : Int)
    (hQ : ∀ p ∈ m.account_status,
      p.2.is_connected = true → p.2.next_available = none) :
    ∀ p ∈ (set_account_unavailable m id' s now).account_status,
      p.2.is_connected = true → p.2.next_available = none := by
  unfold set_account_unavailable
  split
  · intro p hp
    refine @invCN_assocUpdate m.account_status id' (fun st =>
      { st with
        next_available := some (now + s)
        is_connected := false
        last_error := some ("FloodWait for " ++ toString s ++ " seconds") })
      hQ ?_ p hp
    intro st _ hc
    simp at hc
  · exact hQ

theorem invCN_reconnect (m : AccountManager) (aid : Nat)
    (hQ : ∀ p ∈ m.account_status,
      p.2.is_connected = true → p.2.next_available = none) :
    ∀ p ∈ (reconnect_account m aid).2.account_status,
      p.2.is_connected = true → p.2.next_available = none := by
  unfold reconnect_account
  split
  · exact hQ
  · split
    · intro p hp
      refine @invCN_assocUpdate m.account_status aid
        (fun st => { st with last_error := some "KeyError" }) hQ ?_ p hp
      intro st hP hc
      exact hP hc
    · split
      · intro p hp
        refine @invCN_assocUpdate m.account_status aid
          (fun st => { st with
            is_connected := true
            next_available := none
            last_error := none }) hQ ?_ p hp
        intro st _ _
        rfl
      · intro p hp
        refine @invCN_assocUpdate m.account_status aid
          (fun st => { st with is_active := false }) hQ ?_ p hp
        intro st hP hc
        exact hP hc

/-- C8: in every pool state reachable from the fresh manager by the
public operations, a status-connected worker has no pending cooldown:
`isConnected = true` implies `nextAvailable = none`. -/
theorem connected_implies_no_cooldown (ops : List Op) :
    ∀ p ∈ (runOps ops).account_status,
      p.2.is_connected = true → p.2.next_available = none := by
  refine runOps_preserves
    (fun m => ∀ p ∈ m.account_status,
      p.2.is_connected = true → p.2.next_available = none)
    ?_ ?_ ?_ ?_ ?_ ?_ ?_ ops
  · intro p hp
    simp [initMgr] at hp
  · intro m a oc now hQ
    cases oc with
    | ok b =>
      cases b
      · exact hQ
      · intro p hp
        rcases mem_assocInsert hp with hpe | hpo
        · rw [hpe]
          intro _
          rfl
        · exact hQ p hpo
    | floodWait s => exact invCN_set m a.id s now hQ
    | failure msg => exact hQ
  · intro m aid st hQ _ _ _
    exact invCN_reconnect m aid hQ
  · intro m aid i n hQ
    intro p hp
    refine @invCN_assocUpdate m.account_status aid
      (fun st => { st with current_load := st.current_load + 1 }) hQ ?_ p hp
    intro st hP hc
    exact hP hc
  · intro m id' s msg now hQ
    unfold release_account
    split
    · cases s
      · intro p hp
        refine @invCN_assocUpdate m.account_status id'
          (fun st =>
            let st := { st with current_load := max 0 (st.current_load - 1) }
            let st :=
              if false then
                { st with messages_processed := st.messages_processed + 1 }
              else { st with error_count := st.error_count + 1, last_error := msg }
            { st with last_used := some now }) hQ ?_ p hp
        intro st hP hc
        exact hP hc
      · intro p hp
        refine @invCN_assocUpdate m.account_status id'
          (fun st =>
            let st := { st with current_load := max 0 (st.current_load - 1) }
            let st :=
              if true then
                { st with messages_processed := st.messages_processed + 1 }
              else { st with error_count := st.error_count + 1, last_error := msg }
            { st with last_used := some now }) hQ ?_ p hp
        intro st hP hc
        exact hP hc
    · exact hQ
  · intro m id' s now hQ
    exact invCN_set m id' s now hQ
  · intro m id' hQ
    intro p hp
    exact hQ p (mem_assocErase hp)

/-- Witness for C8 at a concrete input: after adding worker 1 with an
authorized connection, its (connected) status carries no cooldown. -/
theorem connected_implies_no_cooldown_witness :
    ((1 : Nat),
      ({ account_id := 1, username := "a", is_active := true,
         is_connected := true, last_used := none, messages_processed := 0,
         error_count := 0, current_load := 0, last_error := none,
         next_available := none } : AccountStatus)).2.next_available = none :=
  connected_implies_no_cooldown
    [Op.add
      { id := 1, username := "a", phone := "", api_id := 0, api_hash := "",
        session_file := none, last_used := none, messages_processed := 0,
        error_count := 0 }
      (ConnectOutcome.ok true) 0]
    (1, { account_id := 1, username := "a", is_active := true,
          is_connected := true, last_used := none, messages_processed := 0,
          error_count := 0, current_load := 0, last_error := none,
          next_available := none })
    (by decide) rfl

theorem invCA_assocUpdate (l : List (Nat × AccountStatus)) (k : Nat)
    (f : AccountStatus → AccountStatus)
    (hn : (l.map Prod.fst).Nodup)
    (h : ∀ p ∈ l, p.2.is_connected = true → p.2.is_active = true)
    (hf : ∀ st, assocFind l k = some st →
      (st.is_connected = true → st.is_active = true) →
      ((f st).is_connected = true → (f st).is_active = true)) :
    ∀ p ∈ assocUpdate l k f,
      p.2.is_connected = true → p.2.is_active = true := by
  intro p hp
  obtain ⟨q, hq, hcase⟩ := mem_assocUpdate hp
  rcases hcase with ⟨hk, hpe⟩ | ⟨hk, hpe⟩
  · rw [hpe]
    have hfind : assocFind l k = some q.2 := by
      rw [← hk]
      exact assocFind_of_mem_nodup hn hq
    exact hf q.2 hfind (h q hq)
  · rw [hpe]
    exact h q hq

theorem invCA_set (m : AccountManager) (id' : Nat) (s now : Int)
    (hn : (m.account_status.map Prod.fst).Nodup)
    (hQ : ∀ p ∈ m.account_status,
      p.2.is_connected = true → p.2.is_active = true) :
    ∀ p ∈ (set_account_unavailable m id' s now).account_status,
      p.2.is_connected = true → p.2.is_active = true := by
  unfold set_account_unavailable
  split
  · intro p hp
    refine invCA_assocUpdate m.account_status id' (fun st =>
      { st with
        next_available := some (now + s)
        is_connected := false
        last_error := some ("FloodWait for " ++ toString s ++ " seconds") })
      hn hQ ?_ p hp
    intro st _ _ hc
    simp at hc
  · exact hQ

theorem keys_set_account_unavailable (m : AccountManager) (id' : Nat)
    (s now : Int) :
    (set_account_unavailable m id' s now).account_status.map Prod.fst
      = m.account_status.map Prod.fst := by
  unfold set_account_unavailable
  split
  · exact keys_assocUpdate m.account_status id' (fun st =>
      { st with
        next_available := some (now + s)
        is_connected := false
        last_error := some ("FloodWait for " ++ toString s ++ " seconds") })
  · rfl

theorem keys_reconnect_account (m : AccountManager) (aid : Nat) :
    (reconnect_account m aid).2.account_status.map Prod.fst
      = m.account_status.map Prod.fst := by
  unfold reconnect_account
  split
  · rfl
  · split
    · exact keys_assocUpdate m.account_status aid
        (fun st => { st with last_error := some "KeyError" })
    · split
      · exact keys_assocUpdate m.account_status aid
          (fun st => { st with
            is_connected := true
            next_available := none
            last_error := none })
      · exact keys_assocUpdate m.account_status aid
          (fun st => { st with is_active := false })

theorem keys_release_account (m : AccountManager) (id' : Nat) (s : Bool)
    (msg : Option String) (now : Int) :
    (release_account m id' s msg now).account_status.map Prod.fst
      = m.account_status.map Prod.fst := by
  unfold release_account
  split
  · exact keys_assocUpdate m.account_status id'
      (fun st =>
        let st := { st with current_load := max 0 (st.current_load - 1) }
        let st :=
          if s then { st with messages_processed := st.messages_processed + 1 }
          else { st with error_count := st.error_count + 1, last_error := msg }
        { st with last_used := some now })
  · rfl

/-- C10: in every reachable pool state a status-connected worker is
administratively active, hence in `get_health_summary` the connected
count never exceeds the active count: `disconnected_accounts ≥ 0` and
`health_percentage ≤ 100`. -/
theorem connected_implies_active (ops : List Op) :
    (∀ p ∈ (runOps ops).account_status,
      p.2.is_connected = true → p.2.is_active = true) ∧
    0 ≤ (get_health_summary (runOps ops)).disconnected_accounts ∧
    (get_health_summary (runOps ops)).health_percentage ≤ 100 := by
  have hinv : (∀ p ∈ (runOps ops).account_status,
      p.2.is_connected = true → p.2.is_active = true) ∧
      ((runOps ops).account_status.map Prod.fst).Nodup := by
    refine runOps_preserves
      (fun m => (∀ p ∈ m.account_status,
        p.2.is_connected = true → p.2.is_active = true) ∧
        (m.account_status.map Prod.fst).Nodup)
      ?_ ?_ ?_ ?_ ?_ ?_ ?_ ops
    · exact ⟨by intro p hp; simp [initMgr] at hp, by simp [initMgr]⟩
    · intro m a oc now hQ
      cases oc with
      | ok b =>
        cases b
        · exact hQ
        · refine ⟨?_, keys_nodup_assocInsert hQ.2⟩
          intro p hp
          rcases mem_assocInsert hp with hpe | hpo
          · rw [hpe]
            intro _
            rfl
          · exact hQ.1 p hpo
      | floodWait s =>
        refine ⟨invCA_set m a.id s now hQ.2 hQ.1, ?_⟩
        show ((set_account_unavailable m a.id s now).account_status.map
          Prod.fst).Nodup
        rw [keys_set_account_unavailable]
        exact hQ.2
      | failure msg => exact hQ
    · intro m aid st hQ hstatus hact hconn
      refine ⟨?_, by rw [keys_reconnect_account]; exact hQ.2⟩
      unfold reconnect_account
      split
      · exact hQ.1
      · split
        · intro p hp
          refine invCA_assocUpdate m.account_status aid
            (fun st => { st with last_error := some "KeyError" })
            hQ.2 hQ.1 ?_ p hp
          intro st' _ hP hc
          exact hP hc
        · split
          · intro p hp
            refine invCA_assocUpdate m.account_status aid
              (fun st => { st with
                is_connected := true
                next_available := none
                last_error := none })
              hQ.2 hQ.1 ?_ p hp
            intro st' hfind _ _
            rw [hstatus] at hfind
            obtain rfl := Option.some.inj hfind
            exact hact
          · intro p hp
            refine invCA_assocUpdate m.account_status aid
              (fun st => { st with is_active := false })
              hQ.2 hQ.1 ?_ p hp
            intro st' hfind _ hc
            rw [hstatus] at hfind
            obtain rfl := Option.some.inj hfind
            rw [hconn] at hc
            simp at hc
    · intro m aid i n hQ
      refine ⟨?_, by
        rw [show (commitAcquire m aid i n).account_status.map Prod.fst
            = m.account_status.map Prod.fst from keys_assocUpdate m.account_status
              aid (fun st => { st with current_load := st.current_load + 1 })]
        exact hQ.2⟩
      intro p hp
      refine invCA_assocUpdate m.account_status aid
        (fun st => { st with current_load := st.current_load + 1 })
        hQ.2 hQ.1 ?_ p hp
      intro st' _ hP hc
      exact hP hc
    · intro m id' s msg now hQ
      refine ⟨?_, by rw [keys_release_account]; exact hQ.2⟩
      unfold release_account
      split
      · cases s
        · intro p hp
          refine invCA_assocUpdate m.account_status id'
            (fun st =>
              let st := { st with current_load := max 0 (st.current_load - 1) }
              let st :=
                if false then
                  { st with messages_processed := st.messages_processed + 1 }
                else { st with error_count := st.error_count + 1, last_error := msg }
              { st with last_used := some now }) hQ.2 hQ.1 ?_ p hp
          intro st' _ hP hc
          exact hP hc
        · intro p hp
          refine invCA_assocUpdate m.account_status id'
            (fun st =>
              let st := { st with current_load := max 0 (st.current_load - 1) }
              let st :=
                if true then
                  { st with messages_processed := st.messages_processed + 1 }
                else { st with error_count := st.error_count + 1, last_error := msg }
              { st with last_used := some now }) hQ.2 hQ.1 ?_ p hp
          intro st' _ hP hc
          exact hP hc
      · exact hQ.1
    · intro m id' s now hQ
      exact ⟨invCA_set m id' s now hQ.2 hQ.1,
        by rw [keys_set_account_unavailable]; exact hQ.2⟩
    · intro m id' hQ
      refine ⟨?_, keys_nodup_assocErase hQ.2⟩
      intro p hp
      exact hQ.1 p (mem_assocErase hp)
  obtain ⟨h1, _⟩ := hinv
  have hcount : (((runOps ops).account_status.map Prod.snd).filter
        (·.is_connected)).length
      ≤ (((runOps ops).account_status.map Prod.snd).filter
        (·.is_active)).length := by
    rw [← List.countP_eq_length_filter, ← List.countP_eq_length_filter]
    apply List.countP_mono_left
    intro x hx hc
    obtain ⟨p, hp, rfl⟩ := List.mem_map.mp hx
    exact by simpa using h1 p hp (by simpa using hc)
  refine ⟨h1, ?_, ?_⟩
  · simp only [get_health_summary]
    omega
  · simp only [get_health_summary]
    split
    · rename_i hpos
      have ha : (0 : ℚ) < (((runOps ops).account_status.map Prod.snd).filter
          (·.is_active)).length := by
        exact_mod_cast hpos
      have hc100 : ((((runOps ops).account_status.map Prod.snd).filter
            (·.is_connected)).length : ℚ)
          ≤ ((((runOps ops).account_status.map Prod.snd).filter
            (·.is_active)).length : ℚ) := by
        exact_mod_cast hcount
      calc ((((runOps ops).account_status.map Prod.snd).filter
              (·.is_connected)).length : ℚ)
            / ((((runOps ops).account_status.map Prod.snd).filter
              (·.is_active)).length : ℚ) * 100
          ≤ 1 * 100 := by
            apply mul_le_mul_of_nonneg_right _ (by norm_num)
            exact (div_le_one ha).mpr hc100
        _ = 100 := by norm_num
    · norm_num

/-- Witness for C10 at a concrete input: after adding worker 1 with an
authorized connection, its status is active and the health summary shows
no negative disconnected count and a percentage within 100. -/
theorem connected_implies_active_witness :
    (((1 : Nat),
      ({ account_id := 1, username := "a", is_active := true,
         is_connected := true, last_used := none, messages_processed := 0,
         error_count := 0, current_load := 0, last_error := none,
         next_available := none } : AccountStatus)).2.is_active = true) ∧
    0 ≤ (get_health_summary (runOps
      [Op.add
        { id := 1, username := "a", phone := "", api_id := 0, api_hash := "",
          session_file := none, last_used := none, messages_processed := 0,
          error_count := 0 }
        (ConnectOutcome.ok true) 0])).disconnected_accounts ∧
    (get_health_summary (runOps
      [Op.add
        { id := 1, username := "a", phone := "", api_id := 0, api_hash := "",
          session_file := none, last_used := none, messages_processed := 0,
          error_count := 0 }
        (ConnectOutcome.ok true) 0])).health_percentage ≤ 100 :=
  ⟨(connected_implies_active
      [Op.add
        { id := 1, username := "a", phone := "", api_id := 0, api_hash := "",
          session_file := none, last_used := none, messages_processed := 0,
          error_count := 0 }
        (ConnectOutcome.ok true) 0]).1
      (1, { account_id := 1, username := "a", is_active := true,
            is_connected := true, last_used := none, messages_processed := 0,
            error_count := 0, current_load := 0, last_error := none,
            next_available := none })
      (by decide) rfl,
   (connected_implies_active
      [Op.add
        { id := 1, username := "a", phone := "", api_id := 0, api_hash := "",
          session_file := none, last_used := none, messages_processed := 0,
          error_count := 0 }
        (ConnectOutcome.ok true) 0]).2.1,
   (connected_implies_active
      [Op.add
        { id := 1, username := "a", phone := "", api_id := 0, api_hash := "",
          session_file := none, last_used := none, messages_processed := 0,
          error_count := 0 }
        (ConnectOutcome.ok true) 0]).2.2⟩
